import Mathlib

/-!
Shallow embedding of the quantitative market-regime / technical-scoring core of
the Solara-Beta repository: the `HMMAnalyzer` class (hmm-analyzer module) and
the `MLTechnicalAnalyzer` class (ml-technical-analyzer module).

Modelling conventions:
* JavaScript floating-point numbers are modelled by `ℚ`.  `Math.sqrt` and the
  floating-point `Math.log` are not rational; every place the source calls
  `Math.sqrt` the embedding takes an abstract function `sqrt' : ℚ → ℚ` as a
  parameter, and the Baum-Welch log-likelihood (used only in the convergence
  test and in reporting) is abstracted as a function parameter as well.
* JavaScript `throw` sites are modelled with `Except JsErr`.  The
  simple-statistics library throws on an empty input list (`mean requires at
  least one data point`); the one reachable empty-input call site
  (`heuristicClassification` on a series with fewer than two candles) is
  modelled by an explicit emptiness check.  All other calls happen on windows
  of fixed positive size and use the total `ssMean` / `ssVariance`.
* Division by zero: JavaScript produces `NaN`/`Infinity` and never throws.
  Where a zero denominator is reachable with valid data (volume averages) the
  embedding uses `jsDiv : ℚ → ℚ → Option ℚ` with `none` standing for the
  non-finite result.  Denominators that are positive for every valid candle
  series (closes, lows; the data model requires positive prices) use plain
  `ℚ` division.
* The k-means clustering of `discretizeObservations` (library `ml-kmeans`,
  randomized initialization) is abstracted as an oracle that assigns one
  cluster id per feature vector; the library throws when it is given fewer
  points than clusters (K = 8), which the embedding checks explicitly.
-/

namespace Solara

/-- OHLCV candle, the element of every price series (JS objects with
timestamp/open/high/low/close/volume fields; `open` is a Lean keyword, hence
`openPrice`). -/
structure Candle where
  timestamp : ℚ
  openPrice : ℚ
  high : ℚ
  low : ℚ
  close : ℚ
  volume : ℚ
deriving DecidableEq

instance : Inhabited Candle := ⟨⟨0, 0, 0, 0, 0, 0⟩⟩

/-- Error values for the JavaScript `throw` sites reachable in the embedded
code: the insufficient-data guard of `trainModel`, the `ml-kmeans` library
throw (fewer points than clusters), and the `simple-statistics` throw on an
empty input list. -/
inductive JsErr
  | insufficientData
  | kmeansError
  | statsError
deriving DecidableEq

/-- simple-statistics `mean` (total version; the library throws on `[]`,
which call sites model explicitly where reachable). -/
def ssMean (l : List ℚ) : ℚ := l.sum / l.length

/-- Population variance as computed by simple-statistics; the library's
`standardDeviation` is its square root (taken through the abstract `sqrt'`
parameter at call sites). -/
def ssVariance (l : List ℚ) : ℚ :=
  ((l.map (fun x => (x - ssMean l) ^ 2)).sum) / l.length

/-- JavaScript division where the denominator may legitimately be zero:
`none` models the non-finite result (`NaN` or `Infinity`). -/
def jsDiv (a b : ℚ) : Option ℚ := if b = 0 then none else some (a / b)

/-- Simple returns `(closes[j] - closes[j-1]) / closes[j-1]`, the loop shared
by `extractHMMFeatures`, `heuristicClassification` and the feature
extractors. -/
def returnsOf (l : List ℚ) : List ℚ :=
  (l.zip l.tail).map (fun pr => (pr.2 - pr.1) / pr.1)

/-- JavaScript `slice(-n)`: the last `n` elements. -/
def lastN (n : ℕ) (l : List α) : List α := l.drop (l.length - n)

/-! ## Market-regime model (HMMAnalyzer) -/

/-- The fixed ordered state set of the regime model. -/
inductive Regime
  | BULL
  | BEAR
  | SIDEWAYS
  | HIGH_VOLATILITY
deriving DecidableEq

/-- `this.states`, the fixed ordered list of the four regimes. -/
def states : List Regime := [.BULL, .BEAR, .SIDEWAYS, .HIGH_VOLATILITY]

/-- `this.numStates = 4`. -/
def numStates : ℕ := 4

/-- `config.windowSize`. -/
def windowSize : ℕ := 20

/-- `config.minTrainingData`. -/
def minTrainingData : ℕ := 100

/-- `config.maxIterations`. -/
def maxIterations : ℕ := 50

/-- `config.convergenceThreshold = 1e-6`. -/
def convergenceThreshold : ℚ := 1 / 1000000

/-- `numSymbols = 8`, the observation-alphabet size handed to k-means in
`discretizeObservations`. -/
def numSymbols : ℕ := 8

/-- One feature vector of `extractHMMFeatures`.  The two volume fields whose
JS value can be `NaN` (zero average volume) are `Option ℚ`; fields computed
through `Math.sqrt` take the abstract square root at construction time. -/
structure HMMFeature where
  meanReturn : ℚ
  returnVolatility : ℚ
  returnSkewness : ℚ
  returnKurtosis : ℚ
  priceChange : ℚ
  priceVolatility : ℚ
  volumeRatio : Option ℚ
  volumeVolatility : Option ℚ
  highLowRatio : ℚ
  averageRange : ℚ
  momentum : ℚ
  rsi : ℚ
  timestamp : ℚ
deriving DecidableEq

/-- `calculateSkewness`: mean of the cubed standardized deviations (the
source divides by the standard deviation, i.e. `sqrt'` of the variance). -/
def calculateSkewness (sqrt' : ℚ → ℚ) (data : List ℚ) : ℚ :=
  let μ := ssMean data
  let std := sqrt' (ssVariance data)
  ((data.map (fun x => ((x - μ) / std) ^ 3)).sum) / data.length

/-- `calculateKurtosis`: mean of the fourth-power standardized deviations,
minus 3. -/
def calculateKurtosis (sqrt' : ℚ → ℚ) (data : List ℚ) : ℚ :=
  let μ := ssMean data
  let std := sqrt' (ssVariance data)
  ((data.map (fun x => ((x - μ) / std) ^ 4)).sum) / data.length - 3

/-- `calculateMomentum` of the HMM module: change over
`min(10, length - 1)` steps, `0` for fewer than `period + 1` prices. -/
def calculateMomentum (prices : List ℚ) : ℚ :=
  let period := min 10 (prices.length - 1)
  if prices.length < period + 1 then 0
  else
    (prices.getD (prices.length - 1) 0 - prices.getD (prices.length - 1 - period) 0) /
      prices.getD (prices.length - 1 - period) 0

/-- `calculateSimpleRSI` with its default period 14. -/
def calculateSimpleRSI (prices : List ℚ) : ℚ :=
  let period := 14
  if prices.length < period + 1 then 50
  else
    let diffs := (List.range period).map (fun idx =>
      prices.getD (prices.length - (idx + 1)) 0 - prices.getD (prices.length - (idx + 1) - 1) 0)
    let gains := diffs.map (fun c => if 0 < c then c else 0)
    let losses := diffs.map (fun c => if 0 < c then 0 else -c)
    let avgGain := ssMean gains
    let avgLoss := ssMean losses
    if avgLoss = 0 then 100
    else 100 - 100 / (1 + avgGain / avgLoss)

/-- The feature vector built for window `slice(i - windowSize, i)` of the
series, with the timestamp of candle `i`. -/
def hmmFeatureAt (sqrt' : ℚ → ℚ) (priceData : List Candle) (i : ℕ) : HMMFeature :=
  let window := (priceData.drop (i - windowSize)).take windowSize
  let closes := window.map Candle.close
  let volumes := window.map Candle.volume
  let highs := window.map Candle.high
  let lows := window.map Candle.low
  let returns := returnsOf closes
  { meanReturn := ssMean returns
    returnVolatility := sqrt' (ssVariance returns)
    returnSkewness := calculateSkewness sqrt' returns
    returnKurtosis := calculateKurtosis sqrt' returns
    priceChange := (closes.getD (closes.length - 1) 0 - closes.getD 0 0) / closes.getD 0 0
    priceVolatility := sqrt' (ssVariance closes) / ssMean closes
    volumeRatio := jsDiv (volumes.getD (volumes.length - 1) 0) (ssMean volumes)
    volumeVolatility := jsDiv (sqrt' (ssVariance volumes)) (ssMean volumes)
    highLowRatio := highs.getD (highs.length - 1) 0 / lows.getD (lows.length - 1) 0
    averageRange := ssMean ((List.range window.length).map (fun idx =>
      (highs.getD idx 0 - lows.getD idx 0) / closes.getD idx 0))
    momentum := calculateMomentum closes
    rsi := calculateSimpleRSI closes
    timestamp := (priceData.getD i default).timestamp }

/-- `extractHMMFeatures`: one feature vector per index from `windowSize` to
`length - 1`. -/
def extractHMMFeatures (sqrt' : ℚ → ℚ) (priceData : List Candle) : List HMMFeature :=
  (List.range (priceData.length - windowSize)).map (fun k =>
    hmmFeatureAt sqrt' priceData (k + windowSize))

/-- The k-means clustering oracle: assigns a cluster id to every feature
vector.  The `ml-kmeans` library guarantees exactly one cluster id per input
point, recorded here in the subtype. -/
def KMeansOracle : Type :=
  (fs : List HMMFeature) → { l : List ℕ // l.length = fs.length }

/-- `discretizeObservations`: cluster the feature vectors into `numSymbols`
discrete symbols.  The `ml-kmeans` library throws when given fewer points
than clusters, modelled by the explicit length check. -/
def discretizeObservations (km : KMeansOracle) (features : List HMMFeature) :
    Except JsErr (List ℕ) :=
  if features.length < numSymbols then .error .kmeansError
  else .ok (km features).val

/-! ### HMM parameters and the Baum-Welch E/M steps -/

/-- A row-major matrix as stored by the `ml-matrix` library. -/
abbrev Mat : Type := List (List ℚ)

/-- `Matrix.get(i, j)` (out-of-range reads never happen in the embedded
code paths; `0` is the junk default). -/
def mget (m : Mat) (i j : ℕ) : ℚ := (m.getD i []).getD j 0

/-- Row sum of a stored matrix row. -/
def rowSum (m : Mat) (i : ℕ) : ℚ := (m.getD i []).sum

/-- A constant matrix, as built by `Matrix.ones(r, c).mul(x)`. -/
def matConst (r c : ℕ) (x : ℚ) : Mat :=
  (List.range r).map (fun _ => (List.range c).map (fun _ => x))

/-- The three learned HMM parameter sets plus the remembered observation
alphabet size, i.e. the mutable fields `transitionMatrix`, `emissionMatrix`,
`initialProbs`, `numSymbols` of `HMMAnalyzer`. -/
structure HMMParams where
  transitionMatrix : Mat
  emissionMatrix : Mat
  initialProbs : List ℚ
  symbolCount : ℕ
deriving DecidableEq

/-- `initializeParameters`: uniform transition/emission/initial parameters;
the alphabet size is `max(observations) + 1`. -/
def initializeParameters (observations : List ℕ) : HMMParams :=
  let k := (observations.foldl max 0) + 1
  { transitionMatrix := matConst numStates numStates (1 / (numStates : ℚ))
    emissionMatrix := matConst numStates k (1 / (k : ℚ))
    initialProbs := (List.range numStates).map (fun _ => 1 / (numStates : ℚ))
    symbolCount := k }

/-- Forward variable `alpha` of `forwardBackward`, by recursion on the time
index. -/
def forwardAlpha (p : HMMParams) (obs : List ℕ) : ℕ → ℕ → ℚ
  | 0, i => p.initialProbs.getD i 0 * mget p.emissionMatrix i (obs.getD 0 0)
  | t + 1, j =>
    (∑ i ∈ Finset.range numStates,
        forwardAlpha p obs t i * mget p.transitionMatrix i j) *
      mget p.emissionMatrix j (obs.getD (t + 1) 0)

/-- Backward variable by distance from the final time step:
`backwardBetaAux p obs T k i` is `beta (T - 1 - k) i`. -/
def backwardBetaAux (p : HMMParams) (obs : List ℕ) (T : ℕ) : ℕ → ℕ → ℚ
  | 0, _ => 1
  | k + 1, i =>
    ∑ j ∈ Finset.range numStates,
      mget p.transitionMatrix i j *
        mget p.emissionMatrix j (obs.getD (T - 1 - k) 0) *
        backwardBetaAux p obs T k j

/-- Backward variable `beta` of `forwardBackward`. -/
def backwardBeta (p : HMMParams) (obs : List ℕ) (T t i : ℕ) : ℚ :=
  backwardBetaAux p obs T (T - 1 - t) i

/-- The raw (pre-`Math.log`) sequence likelihood `sum_i alpha(T-1, i)` of
`forwardBackward`. -/
def rawLikelihood (p : HMMParams) (obs : List ℕ) : ℚ :=
  ∑ i ∈ Finset.range numStates, forwardAlpha p obs (obs.length - 1) i

/-- State-occupancy probability `gamma(t, i)` exactly as normalized in
`updateParameters`. -/
def bwGamma (p : HMMParams) (obs : List ℕ) (t i : ℕ) : ℚ :=
  forwardAlpha p obs t i * backwardBeta p obs obs.length t i /
    ∑ i' ∈ Finset.range numStates,
      forwardAlpha p obs t i' * backwardBeta p obs obs.length t i'

/-- `updateParameters`, the Baum-Welch M-step exactly as written in the
source.  Note the `xi` numerator is divided by `alpha(t,i) * beta(t,i)`
(not by the sequence likelihood, as the textbook algorithm prescribes). -/
def updateParameters (p : HMMParams) (obs : List ℕ) : HMMParams :=
  let T := obs.length
  let alpha := forwardAlpha p obs
  let beta := backwardBeta p obs T
  let gamma := bwGamma p obs
  { transitionMatrix := (List.range numStates).map (fun i =>
      (List.range numStates).map (fun j =>
        (∑ t ∈ Finset.range (T - 1),
            alpha t i * mget p.transitionMatrix i j *
              mget p.emissionMatrix j (obs.getD (t + 1) 0) * beta (t + 1) j /
              (alpha t i * beta t i)) /
          ∑ t ∈ Finset.range (T - 1), gamma t i))
    emissionMatrix := (List.range numStates).map (fun i =>
      (List.range p.symbolCount).map (fun k =>
        (∑ t ∈ Finset.range T, if obs.getD t 0 = k then gamma t i else 0) /
          ∑ t ∈ Finset.range T, gamma t i))
    initialProbs := (List.range numStates).map (fun i => gamma 0 i)
    symbolCount := p.symbolCount }

/-! ### The Baum-Welch training loop

The E-step's reported value is `Math.log` of the raw likelihood, a
floating-point computation with no rational counterpart; the loop is
therefore parametrized over the likelihood function `fb` together with the
M-step `upd`, and instantiated with the concrete `updateParameters` in
`trainModel`.  The control flow (iteration budget, the convergence test
against the previous likelihood, the returned record) mirrors
`baumWelchTraining` line by line; `none` models the initial
`prevLikelihood = -Infinity`, for which the convergence test is always
false. -/

/-- The record returned by `baumWelchTraining` (the parameters themselves are
mutated in place by the JS code; the embedding returns them as
`finalState`). -/
structure BWResult (σ : Type) where
  finalState : σ
  iterations : ℕ
  likelihood : Option ℚ
  converged : Bool

/-- One run of the `for` loop of `baumWelchTraining`, with explicit fuel. -/
def baumWelchLoop {σ : Type} (fb : σ → ℚ) (upd : σ → σ) (thr : ℚ) :
    ℕ → ℕ → Option ℚ → σ → BWResult σ
  | 0, iter, prev, s => ⟨s, iter, prev, false⟩
  | fuel + 1, iter, prev, s =>
    let lik := fb s
    match prev with
    | some pl =>
      if |lik - pl| < thr then ⟨upd s, iter + 1, some lik, true⟩
      else baumWelchLoop fb upd thr fuel (iter + 1) (some lik) (upd s)
    | none => baumWelchLoop fb upd thr fuel (iter + 1) (some lik) (upd s)

/-- `baumWelchTraining`: up to `maxIterations` iterations of E-step
(likelihood `fb`) and M-step (`upd`), stopping early when two successive
likelihood values differ by less than `convergenceThreshold`. -/
def baumWelchTraining {σ : Type} (fb : σ → ℚ) (upd : σ → σ) (s : σ) : BWResult σ :=
  baumWelchLoop fb upd convergenceThreshold maxIterations 0 none s

/-- The likelihood value computed by the E-step of iteration `i` (iteration
`i` sees the parameters produced by `i` M-steps). -/
def bwLik {σ : Type} (fb : σ → ℚ) (upd : σ → σ) (s : σ) (i : ℕ) : ℚ :=
  fb (upd^[i] s)

/-! ### Viterbi decoding and regime prediction

The source computes Viterbi scores in log space (`Math.log` of the
parameters, added along paths).  Because `log` is strictly monotone and
injective on `[0, ∞)` (with `log 0 = -Infinity`), comparing products of
parameters gives the same comparisons, the same first-maximum indices and
hence the same decoded state sequence; the embedding therefore works with
products of the rational parameters directly. -/

/-- First-strict-maximum over indices `0..3`, as the JS loops compute it
(start below everything, replace on strict improvement; index 0 always wins
the first comparison).  Returns `(index, value)`. -/
def argmax4 (f : ℕ → ℚ) : ℕ × ℚ :=
  let step := fun (acc : ℕ × ℚ) (i : ℕ) => if acc.2 < f i then (i, f i) else acc
  step (step (step (0, f 0) 1) 2) 3

/-- Viterbi table `delta` (product space, see above). -/
def viterbiDelta (p : HMMParams) (obs : List ℕ) : ℕ → ℕ → ℚ
  | 0, i => p.initialProbs.getD i 0 * mget p.emissionMatrix i (obs.getD 0 0)
  | t + 1, j =>
    (argmax4 (fun i => viterbiDelta p obs t i * mget p.transitionMatrix i j)).2 *
      mget p.emissionMatrix j (obs.getD (t + 1) 0)

/-- Viterbi backpointer table `psi`. -/
def viterbiPsi (p : HMMParams) (obs : List ℕ) (t j : ℕ) : ℕ :=
  match t with
  | 0 => 0
  | t' + 1 =>
    (argmax4 (fun i => viterbiDelta p obs t' i * mget p.transitionMatrix i j)).1

/-- Traceback state at distance `k` from the end of the sequence. -/
def viterbiStateFromEnd (p : HMMParams) (obs : List ℕ) : ℕ → ℕ
  | 0 => (argmax4 (fun i => viterbiDelta p obs (obs.length - 1) i)).1
  | k + 1 =>
    viterbiPsi p obs (obs.length - 1 - k) (viterbiStateFromEnd p obs k)

/-- `viterbiDecode`: the most likely state sequence (indices into
`states`). -/
def viterbiDecode (p : HMMParams) (obs : List ℕ) : List ℕ :=
  (List.range obs.length).map (fun t =>
    viterbiStateFromEnd p obs (obs.length - 1 - t))

/-- The `currentState` of the trained prediction path: the last entry of
the Viterbi-decoded state sequence. -/
def trainedCurrentState (p : HMMParams) (obs : List ℕ) : ℕ :=
  (viterbiDecode p obs).getD ((viterbiDecode p obs).length - 1) 0

/-- `calculateStateProbabilities`: per-time-step forward probabilities,
normalized by their row sum. -/
def calculateStateProbabilities (p : HMMParams) (obs : List ℕ) : List (List ℚ) :=
  (List.range obs.length).map (fun t =>
    let normalizer := ∑ i ∈ Finset.range numStates, forwardAlpha p obs t i
    (List.range numStates).map (fun i => forwardAlpha p obs t i / normalizer))

/-- `predictNextState`: the `currentState` row of the transition matrix. -/
def predictNextState (p : HMMParams) (currentState : ℕ) : List ℚ :=
  (List.range numStates).map (fun i => mget p.transitionMatrix currentState i)

/-- Persistence metrics of `calculateRegimePersistence`.  When the
self-transition probability is 1 the JS `expectedDuration` is `Infinity`
(modelled by the `ℚ` junk value `1 / 0 = 0`; no claim depends on it). -/
structure Persistence where
  consecutivePeriods : ℕ
  expectedDuration : ℚ
  probabilityOfContinuation : ℚ
  stabilityScore : ℚ
deriving DecidableEq

/-- `calculateRegimePersistence`. -/
def calculateRegimePersistence (p : HMMParams) (stateSequence : List ℕ) : Persistence :=
  let currentState := stateSequence.getD (stateSequence.length - 1) 0
  let consecutive := (stateSequence.reverse.takeWhile (fun s => s == currentState)).length
  let selfTransitionProb := mget p.transitionMatrix currentState currentState
  let expectedDuration := 1 / (1 - selfTransitionProb)
  { consecutivePeriods := consecutive
    expectedDuration := expectedDuration
    probabilityOfContinuation := selfTransitionProb
    stabilityScore := (consecutive : ℚ) / expectedDuration }

/-- Action labels of `generateRegimeBasedRecommendation`. -/
inductive RecAction
  | HOLD
  | BUY
  | WEAK_BUY
  | SELL
  | WEAK_SELL
  | CAUTION
deriving DecidableEq

/-- Risk labels of `generateRegimeBasedRecommendation`. -/
inductive RiskLevel
  | LOW
  | MEDIUM
  | HIGH
  | VERY_HIGH
deriving DecidableEq

/-- Position-sizing labels of `generateRegimeBasedRecommendation`. -/
inductive Sizing
  | MINIMAL
  | SMALL
  | NORMAL
  | LARGE
deriving DecidableEq

/-- Regime-based recommendation record (the free-text `reasoning` field is
omitted). -/
structure Recommendation where
  regime : Regime
  confidence : ℚ
  action : RecAction
  riskLevel : RiskLevel
  positionSizing : Sizing
deriving DecidableEq

/-- `generateRegimeBasedRecommendation`. -/
def generateRegimeBasedRecommendation (currentState : ℕ) (stateProbs : List ℚ) :
    Recommendation :=
  let regimeName := states.getD currentState .BULL
  let confidence := stateProbs.getD currentState 0
  match regimeName with
  | .BULL =>
    { regime := regimeName, confidence := confidence
      action := if 7 / 10 < confidence then .BUY else .WEAK_BUY
      riskLevel := .LOW
      positionSizing := if 4 / 5 < confidence then .LARGE else .NORMAL }
  | .BEAR =>
    { regime := regimeName, confidence := confidence
      action := if 7 / 10 < confidence then .SELL else .WEAK_SELL
      riskLevel := .HIGH
      positionSizing := .SMALL }
  | .SIDEWAYS =>
    { regime := regimeName, confidence := confidence
      action := .HOLD, riskLevel := .MEDIUM, positionSizing := .SMALL }
  | .HIGH_VOLATILITY =>
    { regime := regimeName, confidence := confidence
      action := .CAUTION, riskLevel := .VERY_HIGH, positionSizing := .MINIMAL }

/-- Tag distinguishing the heuristic fallback result (`method: 'HEURISTIC'`
in the JS object; the trained path attaches no `method` field). -/
inductive PredMethod
  | HEURISTIC
deriving DecidableEq

/-- The object returned by `predictMarketRegime` / `heuristicClassification`.
Fields absent from the JS object on a given path are `Option` set to
`none` there. -/
structure RegimePrediction where
  currentRegime : Regime
  confidence : ℚ
  stateProbabilities : List (Regime × ℚ)
  nextStateProbabilities : Option (List (Regime × ℚ))
  persistence : Option Persistence
  stateSequence : Option (List Regime)
  method : Option PredMethod
  recommendation : Recommendation
deriving DecidableEq

/-- `Math.max(...)` over a spread nonempty list (the empty case, JS
`-Infinity`, is unreachable at the call site). -/
def maxOfList (l : List ℚ) : ℚ :=
  match l with
  | [] => 0
  | x :: xs => xs.foldl max x

/-- `heuristicClassification`: threshold rules on mean return, cumulative
price change and return volatility.  With fewer than two candles the
returns list is empty and the simple-statistics `mean` call throws,
modelled by the emptiness check. -/
def heuristicClassification (sqrt' : ℚ → ℚ) (recentData : List Candle) :
    Except JsErr RegimePrediction :=
  let closes := recentData.map Candle.close
  let returns := returnsOf closes
  if returns.isEmpty then .error .statsError
  else
    let avgReturn := ssMean returns
    let volatility := sqrt' (ssVariance returns)
    let priceChange := (closes.getD (closes.length - 1) 0 - closes.getD 0 0) /
      closes.getD 0 0
    let rc : Regime × ℚ :=
      if 1 / 100 < avgReturn ∧ 5 / 100 < priceChange then (.BULL, 7 / 10)
      else if avgReturn < -(1 / 100) ∧ priceChange < -(5 / 100) then (.BEAR, 7 / 10)
      else if 5 / 100 < volatility then (.HIGH_VOLATILITY, 4 / 5)
      else (.SIDEWAYS, 3 / 5)
    .ok
      { currentRegime := rc.1
        confidence := rc.2
        stateProbabilities := [(rc.1, rc.2)]
        nextStateProbabilities := none
        persistence := none
        stateSequence := none
        method := some .HEURISTIC
        recommendation := generateRegimeBasedRecommendation
          (states.indexOf rc.1)
          (states.map (fun s => if s = rc.1 then rc.2 else (1 - rc.2) / 3)) }

/-- The trained-model branch of `predictMarketRegime` (everything inside the
`try` after the `isTrained` test). -/
def trainedPredict (sqrt' : ℚ → ℚ) (km : KMeansOracle) (p : HMMParams)
    (recentData : List Candle) : Except JsErr RegimePrediction :=
  let features := extractHMMFeatures sqrt' recentData
  match discretizeObservations km features with
  | .error e => .error e
  | .ok observations =>
    let stateSequence := viterbiDecode p observations
    let currentState := stateSequence.getD (stateSequence.length - 1) 0
    let stateProbs := calculateStateProbabilities p observations
    let lastProbs := stateProbs.getD (stateProbs.length - 1) []
    let nextStateProbs := predictNextState p currentState
    .ok
      { currentRegime := states.getD currentState .BULL
        confidence := maxOfList lastProbs
        stateProbabilities := states.zip lastProbs
        nextStateProbabilities := some (states.zip nextStateProbs)
        persistence := some (calculateRegimePersistence p stateSequence)
        stateSequence := some ((lastN 10 stateSequence).map
          (fun s => states.getD s .BULL))
        method := none
        recommendation := generateRegimeBasedRecommendation currentState lastProbs }

/-- The model handle: learned parameters plus the `isTrained` flag. -/
structure HMMModel where
  params : HMMParams
  isTrained : Bool

/-- `predictMarketRegime`: heuristic fallback when untrained; otherwise the
trained path, with any error of that path caught and answered by a second
`heuristicClassification` call on the same series (whose own error, if any,
escapes). -/
def predictMarketRegime (m : HMMModel) (sqrt' : ℚ → ℚ) (km : KMeansOracle)
    (recentData : List Candle) : Except JsErr RegimePrediction :=
  if m.isTrained = false then heuristicClassification sqrt' recentData
  else
    match trainedPredict sqrt' km m.params recentData with
    | .ok p => .ok p
    | .error _ => heuristicClassification sqrt' recentData

/-- The value returned by a successful `trainModel` call (model parameters
plus the training statistics). -/
structure TrainOutcome where
  model : HMMParams
  iterations : ℕ
  likelihood : Option ℚ
  converged : Bool

/-- `trainModel`: insufficient-data guard, feature extraction, k-means
discretization, uniform initialization, Baum-Welch training.  `loglik`
abstracts the floating-point `Math.log` likelihood reported by the E-step
(used only in the convergence test and the returned statistics). -/
def trainModel (sqrt' : ℚ → ℚ) (km : KMeansOracle)
    (loglik : HMMParams → List ℕ → ℚ) (priceData : List Candle) :
    Except JsErr TrainOutcome :=
  if priceData.length < minTrainingData then .error .insufficientData
  else
    match discretizeObservations km (extractHMMFeatures sqrt' priceData) with
    | .error e => .error e
    | .ok observations =>
      let p0 := initializeParameters observations
      let r := baumWelchTraining (fun p => loglik p observations)
        (fun p => updateParameters p observations) p0
      .ok ⟨r.finalState, r.iterations, r.likelihood, r.converged⟩

/-! ## MLTechnicalAnalyzer (feature extraction, multi-timeframe, combiner) -/

/-- `calculatePVT`: cumulative price-volume trend. -/
def calculatePVT (data : List Candle) : ℚ :=
  ((data.zip data.tail).map (fun pr =>
    (pr.2.close - pr.1.close) / pr.1.close * pr.2.volume)).sum

/-- `calculateVWAP`: volume-weighted average of the typical price, guarded
against zero total volume. -/
def calculateVWAP (data : List Candle) : ℚ :=
  let totalVolume := (data.map Candle.volume).sum
  let totalVolumePrice := (data.map (fun d =>
    (d.high + d.low + d.close) / 3 * d.volume)).sum
  if 0 < totalVolume then totalVolumePrice / totalVolume else 0

/-- `calculateCorrelation`: Pearson correlation with the source's guards
(length mismatch or fewer than two points gives 0, zero denominator gives
0).  The denominator is a square root, taken through `sqrt'`. -/
def calculateCorrelation (sqrt' : ℚ → ℚ) (x y : List ℚ) : ℚ :=
  if x.length ≠ y.length ∨ x.length < 2 then 0
  else
    let n : ℚ := x.length
    let sumX := x.sum
    let sumY := y.sum
    let sumXY := ((x.zip y).map (fun pr => pr.1 * pr.2)).sum
    let sumXX := (x.map (fun xi => xi * xi)).sum
    let sumYY := (y.map (fun yi => yi * yi)).sum
    let numerator := n * sumXY - sumX * sumY
    let denominator := sqrt' ((n * sumXX - sumX * sumX) * (n * sumYY - sumY * sumY))
    if denominator ≠ 0 then numerator / denominator else 0

/-- The record built by `extractVolumeFeatures`.  `volumeRatio` is the JS
`currentVolume / avgVolume20`, `none` when the trailing average volume is
zero (JS `NaN`); `volumeStd` stores the standard deviation through
`sqrt'`. -/
structure VolumeFeatures where
  volumeRatio : Option ℚ
  volumeMA : ℚ
  volumeStd : ℚ
  priceVolumeCorr : ℚ
  pvt : ℚ
  vwap : ℚ
  currentVolume : ℚ
deriving DecidableEq

/-- `extractVolumeFeatures`. -/
def extractVolumeFeatures (sqrt' : ℚ → ℚ) (data : List Candle) : VolumeFeatures :=
  let volumes := data.map Candle.volume
  let prices := data.map Candle.close
  let avgVolume20 := ssMean (lastN 20 volumes)
  let currentVolume := volumes.getD (volumes.length - 1) 0
  { volumeRatio := jsDiv currentVolume avgVolume20
    volumeMA := avgVolume20
    volumeStd := sqrt' (ssVariance (lastN 20 volumes))
    priceVolumeCorr := calculateCorrelation sqrt' (lastN 20 prices) (lastN 20 volumes)
    pvt := calculatePVT data
    vwap := calculateVWAP (lastN 20 data)
    currentVolume := currentVolume }

/-- Per-timeframe trend labels. -/
inductive Trend
  | BULLISH
  | BEARISH
  | NEUTRAL
deriving DecidableEq

/-- The `first` constant of `identifyTrend`: average of the first five
closes (`slice(0, 5)`). -/
def first5avg (data : List Candle) : ℚ := ((data.map Candle.close).take 5).sum / 5

/-- The `last` constant of `identifyTrend`: average of the last five closes
(`slice(-5)`). -/
def last5avg (data : List Candle) : ℚ := (lastN 5 (data.map Candle.close)).sum / 5

/-- `identifyTrend`: 2% threshold on the change from the first-5 to the
last-5 close average; NEUTRAL for fewer than 10 candles. -/
def identifyTrend (data : List Candle) : Trend :=
  if data.length < 10 then .NEUTRAL
  else
    let change := (last5avg data - first5avg data) / first5avg data
    if 2 / 100 < change then .BULLISH
    else if change < -(2 / 100) then .BEARISH
    else .NEUTRAL

/-- The five timeframes consulted by `analyzeMultiTimeframe`. -/
inductive Timeframe
  | m5
  | m15
  | h1
  | h4
  | d1
deriving DecidableEq

/-- The `timeframes` array of `analyzeMultiTimeframe`. -/
def timeframes : List Timeframe := [.m5, .m15, .h1, .h4, .d1]

/-- Alignment labels of `analyzeMultiTimeframe`. -/
inductive Alignment
  | NEUTRAL
  | STRONG_BULLISH
  | STRONG_BEARISH
  | MIXED
deriving DecidableEq

/-- The per-timeframe trends entering the consensus count: a timeframe
contributes iff its fetch succeeded (`none` models a missing or failed
timeframe) and it has at least 20 candles. -/
def mtfTrends (input : Timeframe → Option (List Candle)) : List Trend :=
  timeframes.filterMap (fun tf =>
    (input tf).bind (fun d =>
      if 20 ≤ d.length then some (identifyTrend d) else none))

/-- Count of BULLISH timeframes. -/
def bullishCount (input : Timeframe → Option (List Candle)) : ℕ :=
  (mtfTrends input).count .BULLISH

/-- Count of BEARISH timeframes. -/
def bearishCount (input : Timeframe → Option (List Candle)) : ℕ :=
  (mtfTrends input).count .BEARISH

/-- The consensus part of `analyzeMultiTimeframe`'s result. -/
structure MTFAnalysis where
  consensus : Trend
  strength : ℚ
  alignment : Alignment
deriving DecidableEq

/-- `analyzeMultiTimeframe` (consensus, strength and alignment; the
per-timeframe `individual` records are not needed by any claim). -/
def analyzeMultiTimeframe (input : Timeframe → Option (List Candle)) : MTFAnalysis :=
  let bullish := bullishCount input
  let bearish := bearishCount input
  { consensus :=
      if bearish + 2 ≤ bullish then .BULLISH
      else if bullish + 2 ≤ bearish then .BEARISH
      else .NEUTRAL
    strength := |((bullish : ℚ) - (bearish : ℚ))| / (timeframes.length : ℚ)
    alignment :=
      if bullish = 0 ∧ bearish = 0 then .NEUTRAL
      else if bearish * 2 < bullish then .STRONG_BULLISH
      else if bullish * 2 < bearish then .STRONG_BEARISH
      else .MIXED }

/-! ### The signal combiner -/

/-- Price-direction labels of the regression predictor. -/
inductive Direction
  | UP
  | DOWN
  | NEUTRAL
deriving DecidableEq

/-- The `ml.priceDirection` record consumed by `scoreMLAnalysis`. -/
structure PriceDirection where
  direction : Direction
  probability : ℚ
deriving DecidableEq

/-- The ML-predictions record consumed by the combiner. -/
structure MLPredictions where
  priceDirection : PriceDirection
  confidence : ℚ
deriving DecidableEq

/-- The traditional-TA analysis as consumed by the combiner
(`analysis.technicalScore.overall` and `analysis.confidence`). -/
structure TraditionalAnalysis where
  technicalScoreOverall : ℚ
  confidence : ℚ
deriving DecidableEq

/-- The `hmm.regime` record as consumed by `scoreHMMAnalysis`:
`currentRegime` is `none` for the UNKNOWN/error record. -/
structure RegimeRecord where
  currentRegime : Option Regime
  confidence : ℚ
deriving DecidableEq

/-- The `hmm` argument of `scoreHMMAnalysis` (`none` models a missing
analysis or a missing `regime` field). -/
abbrev HMMView : Type := Option RegimeRecord

/-- The input record of `combineAnalyses`. -/
structure Analyses where
  traditional : TraditionalAnalysis
  ml : MLPredictions
  multiTimeframe : MTFAnalysis
  hmm : HMMView
deriving DecidableEq

/-- `scoreTraditionalAnalysis`. -/
def scoreTraditionalAnalysis (analysis : TraditionalAnalysis) : ℚ :=
  analysis.technicalScoreOverall

/-- `scoreMLAnalysis`: 75/25/50 by direction, scaled by the ML
confidence. -/
def scoreMLAnalysis (ml : MLPredictions) : ℚ :=
  let directionScore : ℚ :=
    match ml.priceDirection.direction with
    | .UP => 75
    | .DOWN => 25
    | .NEUTRAL => 50
  directionScore * ml.confidence

/-- `scoreMultiTimeframe`: 75/25/50 by consensus, scaled by the strength. -/
def scoreMultiTimeframe (mtf : MTFAnalysis) : ℚ :=
  let consensusScore : ℚ :=
    match mtf.consensus with
    | .BULLISH => 75
    | .BEARISH => 25
    | .NEUTRAL => 50
  consensusScore * mtf.strength

/-- `scorePatterns`: the placeholder neutral score. -/
def scorePatterns : ℚ := 50

/-- `scoreHMMAnalysis`: regime base score 75/25/45/35 (50 for
unknown/missing), shifted by `(confidence - 0.5) * 20` and clamped to
`[0, 100]`.  The JS `confidence || 0.5` replaces a falsy (zero) confidence
by 0.5. -/
def scoreHMMAnalysis (hmm : HMMView) : ℚ :=
  match hmm with
  | none => 50
  | some regime =>
    let confidence := if regime.confidence = 0 then 1 / 2 else regime.confidence
    let baseScore : ℚ :=
      match regime.currentRegime with
      | some .BULL => 75
      | some .BEAR => 25
      | some .SIDEWAYS => 45
      | some .HIGH_VOLATILITY => 35
      | none => 50
    let adjustment := (confidence - 1 / 2) * 20
    max 0 (min 100 (baseScore + adjustment))

/-- Signal labels of the combiner. -/
inductive Signal
  | STRONG_BUY
  | BUY
  | WEAK_BUY
  | NEUTRAL
  | WEAK_SELL
  | SELL
  | STRONG_SELL
deriving DecidableEq

/-- `determineOverallSignal`: the threshold ladder on the overall score. -/
def determineOverallSignal (score : ℚ) : Signal :=
  if 75 ≤ score then .STRONG_BUY
  else if 60 ≤ score then .BUY
  else if 55 ≤ score then .WEAK_BUY
  else if 45 ≤ score then .NEUTRAL
  else if 40 ≤ score then .WEAK_SELL
  else if 25 ≤ score then .SELL
  else .STRONG_SELL

/-- JS `signal.includes('BUY')` on the signal labels. -/
def Signal.isBuyFamily : Signal → Bool
  | .STRONG_BUY | .BUY | .WEAK_BUY => true
  | _ => false

/-- JS `signal.includes('SELL')` on the signal labels. -/
def Signal.isSellFamily : Signal → Bool
  | .STRONG_SELL | .SELL | .WEAK_SELL => true
  | _ => false

/-- Actions of `generateMLRecommendation`. -/
inductive MLAction
  | BUY
  | SELL
  | HOLD
deriving DecidableEq

/-- Position sizes of `calculatePositionSize` (a mixed label set in the
source strings). -/
inductive MLPosition
  | LARGE
  | NORMAL
  | SMALL
  | REDUCE
  | HOLD
deriving DecidableEq

/-- `calculatePositionSize`. -/
def calculatePositionSize (signal : Signal) (confidence : ℚ) : MLPosition :=
  if signal = .STRONG_BUY ∧ 4 / 5 < confidence then .LARGE
  else if signal.isBuyFamily ∧ 7 / 10 < confidence then .NORMAL
  else if signal.isBuyFamily then .SMALL
  else if signal.isSellFamily then .REDUCE
  else .HOLD

/-- The recommendation record of `generateMLRecommendation` (free-text
reasoning omitted). -/
structure MLRecommendation where
  action : MLAction
  signal : Signal
  score : ℚ
  confidence : ℚ
  positionSize : MLPosition
deriving DecidableEq

/-- `generateMLRecommendation`. -/
def generateMLRecommendation (signal : Signal) (score confidence : ℚ) :
    MLRecommendation :=
  { action :=
      if signal.isBuyFamily then .BUY
      else if signal.isSellFamily then .SELL
      else .HOLD
    signal := signal
    score := score
    confidence := confidence
    positionSize := calculatePositionSize signal confidence }

/-- The five component scores of the combiner. -/
structure ComponentScores where
  traditional : ℚ
  ml : ℚ
  multiTimeframe : ℚ
  patterns : ℚ
  hmm : ℚ
deriving DecidableEq

/-- The combined-analysis output (the echoed `analyses`/`features` fields
are not modelled). -/
structure CombinedAnalysis where
  overallSignal : Signal
  overallScore : ℚ
  confidence : ℚ
  recommendation : MLRecommendation
  scores : ComponentScores
deriving DecidableEq

/-- `calculateOverallConfidence`. -/
def calculateOverallConfidence (a : Analyses) : ℚ :=
  a.traditional.confidence * (6 / 10) + a.ml.confidence * (4 / 10)

/-- `combineAnalyses`: the five component scores, their fixed-weight
combination, the signal label, confidence and recommendation. -/
def combineAnalyses (a : Analyses) : CombinedAnalysis :=
  let scores : ComponentScores :=
    { traditional := scoreTraditionalAnalysis a.traditional
      ml := scoreMLAnalysis a.ml
      multiTimeframe := scoreMultiTimeframe a.multiTimeframe
      patterns := scorePatterns
      hmm := scoreHMMAnalysis a.hmm }
  let overallScore :=
    scores.traditional * (35 / 100) + scores.ml * (25 / 100) +
      scores.multiTimeframe * (15 / 100) + scores.patterns * (1 / 10) +
      scores.hmm * (15 / 100)
  let overallSignal := determineOverallSignal overallScore
  let confidence := calculateOverallConfidence a
  { overallSignal := overallSignal
    overallScore := overallScore
    confidence := confidence
    recommendation := generateMLRecommendation overallSignal overallScore confidence
    scores := scores }

/-! ## Analysis helpers for the Baum-Welch M-step

`updateParameters` divides its `xi` by `alpha(t,i) * beta(t,i)` instead of
by the sequence likelihood.  As a consequence, starting from the uniform
initialization every transition-matrix entry becomes exactly 1 after the
first M-step (each row then sums to `numStates = 4`, not 1), and the
resulting parameter set is a fixed point of the M-step.  The following
definitions name that fixed point and the symmetry property that drives the
proof. -/

/-- The parameter set every Baum-Welch run of this code converges to after
its first M-step: all-ones transition matrix, state-independent empirical
emission rows, uniform initial probabilities. -/
def bwFixedPoint (obs : List ℕ) (K : ℕ) : HMMParams :=
  { transitionMatrix := matConst numStates numStates 1
    emissionMatrix := (List.range numStates).map (fun _ =>
      (List.range K).map (fun k => (obs.count k : ℚ) / (obs.length : ℚ)))
    initialProbs := (List.range numStates).map (fun _ => 1 / 4)
    symbolCount := K }

/-- State-symmetry of an HMM parameter set: constant transition entries,
state-independent emission rows, constant initial probabilities, with the
relevant quantities positive.  Both the uniform initialization and
`bwFixedPoint` have this shape, and it makes every `alpha`/`beta` value
independent of the state index. -/
structure SymShape (p : HMMParams) (obs : List ℕ) (a c : ℚ) (e : ℕ → ℚ) : Prop where
  ha : 0 < a
  hc : 0 < c
  htrans : ∀ i j, i < numStates → j < numStates → mget p.transitionMatrix i j = a
  hemis : ∀ i k, i < numStates → mget p.emissionMatrix i k = e k
  hinit : ∀ i, i < numStates → p.initialProbs.getD i 0 = c
  hobs : ∀ t, t < obs.length → 0 < e (obs.getD t 0)

/-! ## Concrete example inputs used by counterexamples and witnesses -/

/-- A 21-candle series with constant positive price and zero volume: the
zero-average-volume edge case. -/
def zeroVolumeSeries : List Candle := List.replicate 21 ⟨0, 1, 1, 1, 1, 0⟩

/-- A trivial concrete square root (the claims evaluated on it do not
depend on the square-root values). -/
def sqrtZero : ℚ → ℚ := fun _ => 0

/-- A concrete clustering oracle assigning cluster 0 to every point. -/
def kmZero : KMeansOracle := fun fs => ⟨List.replicate fs.length 0, by simp⟩

/-- Concrete uniform parameters (one observation symbol). -/
def paramsEx : HMMParams := initializeParameters [0]

/-- Two flat candles: heuristic classification succeeds, the trained path
fails at clustering. -/
def twoFlatCandles : List Candle := List.replicate 2 ⟨0, 1, 1, 1, 1, 1⟩

/-- Three flat candles (SIDEWAYS heuristic classification). -/
def threeFlatCandles : List Candle := List.replicate 3 ⟨0, 1, 1, 1, 1, 1⟩

/-- Twenty-eight flat candles: enough for the trained prediction path
(eight feature vectors). -/
def flat28 : List Candle := List.replicate 28 ⟨0, 1, 1, 1, 1, 1⟩

/-- The observation sequence the oracle `kmZero` produces on `flat28`. -/
def obsFlat8 : List ℕ := List.replicate 8 0

/-- One hundred flat candles: the shortest series `trainModel` accepts. -/
def flat100 : List Candle := List.replicate 100 ⟨0, 1, 1, 1, 1, 1⟩

/-- Twenty candles stepping from close 100 to close 200: a clearly BULLISH
timeframe for `identifyTrend`. -/
def bullishData20 : List Candle :=
  List.replicate 15 ⟨0, 100, 100, 100, 100, 1⟩ ++
    List.replicate 5 ⟨0, 200, 200, 200, 200, 1⟩

/-- Every timeframe reports the same bullish 20-candle series. -/
def inputAllBull : Timeframe → Option (List Candle) := fun _ => some bullishData20

/-! ## Helper lemmas -/

/-- `extractHMMFeatures` produces one feature vector per index from
`windowSize` to the end of the series. -/
theorem extractHMMFeatures_length (sqrt' : ℚ → ℚ) (d : List Candle) :
    (extractHMMFeatures sqrt' d).length = d.length - windowSize := by
  simp [extractHMMFeatures]

/-! ## Claims -/

/-- C5: the signal label is STRONG_BUY iff the overall score is at least 75,
BUY iff it is in [60, 75), WEAK_BUY iff in [55, 60), NEUTRAL iff in
[45, 55), WEAK_SELL iff in [40, 45), SELL iff in [25, 40), STRONG_SELL iff
below 25; in particular 75 gives STRONG_BUY, 74.999 gives BUY, 60 gives BUY
and 59.999 gives WEAK_BUY. -/
theorem C5_signal_label_thresholds (s : ℚ) :
    (determineOverallSignal s = .STRONG_BUY ↔ 75 ≤ s) ∧
    (determineOverallSignal s = .BUY ↔ 60 ≤ s ∧ s < 75) ∧
    (determineOverallSignal s = .WEAK_BUY ↔ 55 ≤ s ∧ s < 60) ∧
    (determineOverallSignal s = .NEUTRAL ↔ 45 ≤ s ∧ s < 55) ∧
    (determineOverallSignal s = .WEAK_SELL ↔ 40 ≤ s ∧ s < 45) ∧
    (determineOverallSignal s = .SELL ↔ 25 ≤ s ∧ s < 40) ∧
    (determineOverallSignal s = .STRONG_SELL ↔ s < 25) ∧
    determineOverallSignal 75 = .STRONG_BUY ∧
    determineOverallSignal (74999 / 1000) = .BUY ∧
    determineOverallSignal 60 = .BUY ∧
    determineOverallSignal (59999 / 1000) = .WEAK_BUY := by
  refine ⟨?_, ?_, ?_, ?_, ?_, ?_, ?_, by with_unfolding_all decide,
    by with_unfolding_all decide, by with_unfolding_all decide,
    by with_unfolding_all decide⟩ <;>
    · unfold determineOverallSignal
      split_ifs <;>
        simp <;>
        first
          | (constructor <;> linarith)
          | linarith
          | (rintro ⟨h7, h8⟩; linarith)
          | (intro h7; linarith)

/-- C4: the combiner's overall score is the fixed-weight combination
traditional 0.35, ml 0.25, multi-timeframe 0.15, patterns 0.10, hmm 0.15 of
the five component scores, and those component scores are the respective
scoring functions applied to the inputs. -/
theorem C4_combiner_weights (a : Analyses) :
    (combineAnalyses a).overallScore =
      (combineAnalyses a).scores.traditional * (35 / 100) +
        (combineAnalyses a).scores.ml * (25 / 100) +
        (combineAnalyses a).scores.multiTimeframe * (15 / 100) +
        (combineAnalyses a).scores.patterns * (10 / 100) +
        (combineAnalyses a).scores.hmm * (15 / 100) ∧
    (combineAnalyses a).scores.traditional = scoreTraditionalAnalysis a.traditional ∧
    (combineAnalyses a).scores.ml = scoreMLAnalysis a.ml ∧
    (combineAnalyses a).scores.multiTimeframe = scoreMultiTimeframe a.multiTimeframe ∧
    (combineAnalyses a).scores.patterns = scorePatterns ∧
    (combineAnalyses a).scores.hmm = scoreHMMAnalysis a.hmm := by
  refine ⟨?_, rfl, rfl, rfl, rfl, rfl⟩
  norm_num [combineAnalyses]

/-- C2: `trainModel` fails with the insufficient-data error exactly for
series shorter than 100 candles; with 100 or more candles it never raises
that error (in particular 99 candles fail and 100 proceed). -/
theorem C2_trainModel_minimum_data (sqrt' : ℚ → ℚ) (km : KMeansOracle)
    (loglik : HMMParams → List ℕ → ℚ) (d : List Candle) :
    trainModel sqrt' km loglik d = .error .insufficientData ↔
      d.length < minTrainingData := by
  unfold trainModel
  split_ifs with h
  · simp [h]
  · have hfl : ¬ ((extractHMMFeatures sqrt' d).length < numSymbols) := by
      rw [extractHMMFeatures_length]
      unfold windowSize numSymbols
      unfold minTrainingData at h
      omega
    unfold discretizeObservations
    rw [if_neg hfl]
    simp [h]

/-- C7: the volume-ratio computations are not guarded against a zero
trailing average volume: on a series whose volumes are all zero, both
`extractHMMFeatures` and `extractVolumeFeatures` compute
`currentVolume / mean(volumes) = 0 / 0`, i.e. NaN (`none` in the
embedding), instead of a neutral default. -/
theorem C7_volume_ratio_not_guarded (sqrt' : ℚ → ℚ) :
    ((extractHMMFeatures sqrt' zeroVolumeSeries).map HMMFeature.volumeRatio) =
      [none] ∧
    (extractVolumeFeatures sqrt' zeroVolumeSeries).volumeRatio = none := by
  constructor <;> with_unfolding_all rfl

/-- The returns list has one entry per consecutive pair. -/
theorem returnsOf_length (l : List ℚ) : (returnsOf l).length = l.length - 1 := by
  simp [returnsOf]

/-- On a series with at least two candles, `heuristicClassification` always
succeeds and tags its result HEURISTIC. -/
theorem heuristicClassification_ok (sqrt' : ℚ → ℚ) (series : List Candle)
    (h : 2 ≤ series.length) :
    ∃ pred, heuristicClassification sqrt' series = .ok pred ∧
      pred.method = some .HEURISTIC := by
  have hne : (returnsOf (series.map Candle.close)).isEmpty = false := by
    rw [List.isEmpty_eq_false_iff_exists_mem]
    have hlen : (returnsOf (series.map Candle.close)).length = series.length - 1 := by
      rw [returnsOf_length, List.length_map]
    rcases hx : returnsOf (series.map Candle.close) with _ | ⟨a, t⟩
    · rw [hx] at hlen; simp at hlen; omega
    · exact ⟨a, by simp [hx]⟩
  unfold heuristicClassification
  dsimp only
  rw [hne]
  simp only [Bool.false_eq_true, if_false]
  exact ⟨_, rfl, rfl⟩

/-- C3 (amended): for every recent candle series with at least two candles,
calling `predictMarketRegime` before any successful training returns a
result tagged HEURISTIC and never raises.  (With zero or one candles the
heuristic path itself throws inside the simple-statistics `mean` call, see
the counterexample.) -/
theorem C3_untrained_heuristic_fallback (sqrt' : ℚ → ℚ) (km : KMeansOracle)
    (params : HMMParams) (series : List Candle) (h : 2 ≤ series.length) :
    ∃ pred, predictMarketRegime ⟨params, false⟩ sqrt' km series = .ok pred ∧
      pred.method = some .HEURISTIC := by
  have := heuristicClassification_ok sqrt' series h
  simpa [predictMarketRegime] using this

/-- C3 counterexample: on the empty series, `predictMarketRegime` on an
untrained model raises (the heuristic classifier calls the
simple-statistics `mean` on the empty returns list, which throws), instead
of returning a HEURISTIC-tagged result. -/
theorem C3_counterexample_empty_series_raises :
    predictMarketRegime ⟨paramsEx, false⟩ sqrtZero kmZero [] =
      .error .statsError := by
  with_unfolding_all rfl

/-- C3 witness: the amended theorem applied to a concrete two-candle
series. -/
theorem C3_witness :
    2 ≤ twoFlatCandles.length ∧
    ∃ pred, predictMarketRegime ⟨paramsEx, false⟩ sqrtZero kmZero twoFlatCandles =
        .ok pred ∧ pred.method = some .HEURISTIC :=
  ⟨by decide,
    C3_untrained_heuristic_fallback sqrtZero kmZero paramsEx twoFlatCandles (by decide)⟩

/-- C10 (amended): whenever the trained-model branch of
`predictMarketRegime` throws, the call answers with
`heuristicClassification` on the same series instead of propagating that
error; when the series has at least two candles this fallback succeeds and
is tagged HEURISTIC (with fewer candles the fallback's own error
escapes, see the counterexample). -/
theorem C10_trained_error_falls_back (sqrt' : ℚ → ℚ) (km : KMeansOracle)
    (params : HMMParams) (series : List Candle) (e : JsErr)
    (h : trainedPredict sqrt' km params series = .error e) :
    predictMarketRegime ⟨params, true⟩ sqrt' km series =
      heuristicClassification sqrt' series ∧
    (2 ≤ series.length →
      ∃ pred, predictMarketRegime ⟨params, true⟩ sqrt' km series = .ok pred ∧
        pred.method = some .HEURISTIC) := by
  have hmain : predictMarketRegime ⟨params, true⟩ sqrt' km series =
      heuristicClassification sqrt' series := by
    unfold predictMarketRegime
    rw [h]
    rfl
  refine ⟨hmain, fun hlen => ?_⟩
  rw [hmain]
  exact heuristicClassification_ok sqrt' series hlen

/-- C10 counterexample: on the empty series the trained path throws
(k-means on an empty feature set), and the catch block's second heuristic
call throws as well, so the call propagates an error instead of returning
the heuristic classification. -/
theorem C10_counterexample_error_propagates :
    trainedPredict sqrtZero kmZero paramsEx [] = .error .kmeansError ∧
    predictMarketRegime ⟨paramsEx, true⟩ sqrtZero kmZero [] =
      .error .statsError := by
  constructor <;> with_unfolding_all rfl

/-- C10 witness: the amended theorem applied to a concrete two-candle
series on which the trained path fails at clustering. -/
theorem C10_witness :
    predictMarketRegime ⟨paramsEx, true⟩ sqrtZero kmZero twoFlatCandles =
      heuristicClassification sqrtZero twoFlatCandles ∧
    ∃ pred, predictMarketRegime ⟨paramsEx, true⟩ sqrtZero kmZero twoFlatCandles =
        .ok pred ∧ pred.method = some .HEURISTIC := by
  have h := C10_trained_error_falls_back sqrtZero kmZero paramsEx twoFlatCandles
    .kmeansError (by with_unfolding_all rfl)
  exact ⟨h.1, h.2 (by decide)⟩

/-- C9: per-timeframe trend is BULLISH when the last-5 close average exceeds
the first-5 close average by more than 2% (BEARISH for the symmetric
decline, else NEUTRAL); the consensus is BULLISH iff the bullish-timeframe
count is at least the bearish count plus 2, BEARISH iff the reverse, else
NEUTRAL; and when every timeframe reports BULLISH the consensus is BULLISH
with alignment fraction 1 (i.e. 100%) and STRONG_BULLISH alignment. -/
theorem C9_multi_timeframe_consensus :
    (∀ data : List Candle, 10 ≤ data.length → (∀ c ∈ data, 0 < c.close) →
      ((identifyTrend data = .BULLISH ↔
          first5avg data * (102 / 100) < last5avg data) ∧
       (identifyTrend data = .BEARISH ↔
          last5avg data < first5avg data * (98 / 100)) ∧
       (identifyTrend data = .NEUTRAL ↔
          ¬(first5avg data * (102 / 100) < last5avg data) ∧
          ¬(last5avg data < first5avg data * (98 / 100))))) ∧
    (∀ input : Timeframe → Option (List Candle),
      ((analyzeMultiTimeframe input).consensus = .BULLISH ↔
        bearishCount input + 2 ≤ bullishCount input) ∧
      ((analyzeMultiTimeframe input).consensus = .BEARISH ↔
        bullishCount input + 2 ≤ bearishCount input) ∧
      ((analyzeMultiTimeframe input).consensus = .NEUTRAL ↔
        ¬(bearishCount input + 2 ≤ bullishCount input) ∧
        ¬(bullishCount input + 2 ≤ bearishCount input))) ∧
    (∀ input : Timeframe → Option (List Candle),
      (∀ tf ∈ timeframes, ∃ d, input tf = some d ∧ 20 ≤ d.length ∧
        identifyTrend d = .BULLISH) →
      (analyzeMultiTimeframe input).consensus = .BULLISH ∧
      (analyzeMultiTimeframe input).strength = 1 ∧
      (analyzeMultiTimeframe input).alignment = .STRONG_BULLISH) := by
  refine ⟨?_, ?_, ?_⟩
  · intro data hlen hpos
    have hF : 0 < first5avg data := by
      unfold first5avg
      have htk : ((data.map Candle.close).take 5).length = 5 := by
        rw [List.length_take]
        simp [List.length_map]
        omega
      have hne : (data.map Candle.close).take 5 ≠ [] := by
        intro hnil
        rw [hnil] at htk
        simp at htk
      have hall : ∀ x ∈ (data.map Candle.close).take 5, 0 < x := by
        intro x hx
        have hx' : x ∈ data.map Candle.close := List.take_subset 5 _ hx
        obtain ⟨c, hc, rfl⟩ := List.mem_map.mp hx'
        exact hpos c hc
      exact div_pos (List.sum_pos _ hall hne) (by norm_num)
    unfold identifyTrend
    rw [if_neg (by omega)]
    dsimp only
    split_ifs with h1 h2
    · have hA : first5avg data * (102 / 100) < last5avg data := by
        rw [lt_div_iff₀ hF] at h1; linarith
      refine ⟨⟨fun _ => hA, fun _ => rfl⟩, ⟨fun h => absurd h (by decide), ?_⟩,
        ⟨fun h => absurd h (by decide), fun hN => absurd hA hN.1⟩⟩
      intro hB
      exact absurd hB (by linarith)
    · have hB : last5avg data < first5avg data * (98 / 100) := by
        rw [div_lt_iff₀ hF] at h2; linarith
      have hnA : ¬(first5avg data * (102 / 100) < last5avg data) := by
        intro hA; linarith
      refine ⟨⟨fun h => absurd h (by decide), fun hA => absurd hA hnA⟩,
        ⟨fun _ => hB, fun _ => rfl⟩,
        ⟨fun h => absurd h (by decide), fun hN => absurd hB hN.2⟩⟩
    · have hle1 : (last5avg data - first5avg data) / first5avg data ≤ 2 / 100 :=
        not_lt.mp h1
      have hle2 : -(2 / 100) ≤ (last5avg data - first5avg data) / first5avg data :=
        not_lt.mp h2
      rw [div_le_iff₀ hF] at hle1
      rw [le_div_iff₀ hF] at hle2
      have hnA : ¬(first5avg data * (102 / 100) < last5avg data) := by
        intro hA; linarith
      have hnB : ¬(last5avg data < first5avg data * (98 / 100)) := by
        intro hB; linarith
      exact ⟨⟨fun h => absurd h (by decide), fun hA => absurd hA hnA⟩,
        ⟨fun h => absurd h (by decide), fun hB => absurd hB hnB⟩,
        ⟨fun _ => ⟨hnA, hnB⟩, fun _ => rfl⟩⟩
  · intro input
    simp only [analyzeMultiTimeframe]
    split_ifs with hb hs
    · exact ⟨⟨fun _ => hb, fun _ => rfl⟩,
        ⟨fun h => absurd h (by decide), fun h => by omega⟩,
        ⟨fun h => absurd h (by decide), fun h => absurd hb h.1⟩⟩
    · exact ⟨⟨fun h => absurd h (by decide), fun h => absurd h hb⟩,
        ⟨fun _ => hs, fun _ => rfl⟩,
        ⟨fun h => absurd h (by decide), fun h => absurd hs h.2⟩⟩
    · exact ⟨⟨fun h => absurd h (by decide), fun h => absurd h hb⟩,
        ⟨fun h => absurd h (by decide), fun h => absurd h hs⟩,
        ⟨fun _ => ⟨hb, hs⟩, fun _ => rfl⟩⟩
  · intro input hall
    obtain ⟨d1, hd1, hl1, ht1⟩ := hall .m5 (by simp [timeframes])
    obtain ⟨d2, hd2, hl2, ht2⟩ := hall .m15 (by simp [timeframes])
    obtain ⟨d3, hd3, hl3, ht3⟩ := hall .h1 (by simp [timeframes])
    obtain ⟨d4, hd4, hl4, ht4⟩ := hall .h4 (by simp [timeframes])
    obtain ⟨d5, hd5, hl5, ht5⟩ := hall .d1 (by simp [timeframes])
    have htr : mtfTrends input = [.BULLISH, .BULLISH, .BULLISH, .BULLISH, .BULLISH] := by
      simp [mtfTrends, timeframes, hd1, hd2, hd3, hd4, hd5,
        hl1, hl2, hl3, hl4, hl5, ht1, ht2, ht3, ht4, ht5]
    have hbull : bullishCount input = 5 := by
      show (mtfTrends input).count .BULLISH = 5
      rw [htr]
      rfl
    have hbear : bearishCount input = 0 := by
      show (mtfTrends input).count .BEARISH = 0
      rw [htr]
      rfl
    refine ⟨?_, ?_, ?_⟩ <;>
      simp [analyzeMultiTimeframe, hbull, hbear, timeframes]

/-- C9 witness: the theorem applied to the concrete all-bullish input and
to a concrete 20-candle bullish series. -/
theorem C9_multi_timeframe_witness :
    identifyTrend bullishData20 = .BULLISH ∧
    (analyzeMultiTimeframe inputAllBull).consensus = .BULLISH ∧
    (analyzeMultiTimeframe inputAllBull).strength = 1 ∧
    (analyzeMultiTimeframe inputAllBull).alignment = .STRONG_BULLISH := by
  have htrend : identifyTrend bullishData20 = .BULLISH :=
    (C9_multi_timeframe_consensus.1 bullishData20 (by decide)
      (by with_unfolding_all decide)).1.mpr (by with_unfolding_all decide)
  have hc := C9_multi_timeframe_consensus.2.2 inputAllBull
    (fun tf _ => ⟨bullishData20, rfl, by decide, htrend⟩)
  exact ⟨htrend, hc⟩

/-- List sums over `List.range` agree with `Finset.range` sums. -/
theorem list_sum_map_range (n : ℕ) (f : ℕ → ℚ) :
    ((List.range n).map f).sum = ∑ i ∈ Finset.range n, f i := by
  induction n with
  | zero => simp
  | succ m ih =>
    rw [List.range_succ, List.map_append, List.sum_append, Finset.sum_range_succ, ih]
    simp

/-- Reading entry `k` of a mapped range list. -/
theorem getD_map_range {α : Type} (d : α) {k n : ℕ} (f : ℕ → α) (h : k < n) :
    ((List.range n).map f).getD k d = f k := by
  rw [List.getD_eq_getElem?_getD, List.getElem?_map, List.getElem?_range h]
  rfl

/-- C6 (amended): on the trained prediction path the reported
`stateProbabilities` sum to 1 whenever the forward normalizer is nonzero,
and `nextStateProbabilities` is present and sums to the `currentState` row
sum of the transition matrix (which this code's training does not keep at
1); on the heuristic path `stateProbabilities` is the single-entry mapping
`{regime: confidence}` summing to the confidence value (0.6, 0.7 or 0.8),
not 1, and no `nextStateProbabilities` mapping is produced. -/
theorem C6_probability_sums :
    (∀ (sqrt' : ℚ → ℚ) (km : KMeansOracle) (p : HMMParams) (series : List Candle)
        (pred : RegimePrediction),
      trainedPredict sqrt' km p series = .ok pred →
      ∃ obs, discretizeObservations km (extractHMMFeatures sqrt' series) = .ok obs ∧
        (rawLikelihood p obs ≠ 0 →
          (pred.stateProbabilities.map Prod.snd).sum = 1) ∧
        pred.nextStateProbabilities.map (fun l => (l.map Prod.snd).sum) =
          some (∑ i ∈ Finset.range numStates,
            mget p.transitionMatrix (trainedCurrentState p obs) i)) ∧
    (∀ (sqrt' : ℚ → ℚ) (series : List Candle) (pred : RegimePrediction),
      heuristicClassification sqrt' series = .ok pred →
      (pred.stateProbabilities.map Prod.snd).sum = pred.confidence ∧
      (pred.confidence = 3 / 5 ∨ pred.confidence = 7 / 10 ∨ pred.confidence = 4 / 5) ∧
      pred.nextStateProbabilities = none ∧
      pred.method = some .HEURISTIC) := by
  constructor
  · intro sqrt' km p series pred htp
    unfold trainedPredict at htp
    dsimp only at htp
    cases hd : discretizeObservations km (extractHMMFeatures sqrt' series) with
    | error e => rw [hd] at htp; exact absurd htp (by simp)
    | ok obs =>
      rw [hd] at htp
      dsimp only at htp
      rw [Except.ok.injEq] at htp
      subst htp
      have hobslen : 1 ≤ obs.length := by
        unfold discretizeObservations at hd
        split_ifs at hd with hlt
        rw [Except.ok.injEq] at hd
        have hkm := (km (extractHMMFeatures sqrt' series)).property
        unfold numSymbols at hlt
        rw [← hd]
        omega
      have hlast : (calculateStateProbabilities p obs).getD
          ((calculateStateProbabilities p obs).length - 1) [] =
          (List.range numStates).map (fun i =>
            forwardAlpha p obs (obs.length - 1) i /
              ∑ i' ∈ Finset.range numStates, forwardAlpha p obs (obs.length - 1) i') := by
        have hcl : (calculateStateProbabilities p obs).length = obs.length := by
          simp [calculateStateProbabilities]
        rw [hcl]
        unfold calculateStateProbabilities
        exact getD_map_range [] _ (by omega)
      refine ⟨obs, rfl, ?_, ?_⟩
      · intro hS
        dsimp only
        rw [hlast, List.map_snd_zip states _ (by simp [states, numStates]),
          list_sum_map_range, ← Finset.sum_div]
        exact div_self hS
      · dsimp only
        rw [Option.map_some', Option.some.injEq,
          List.map_snd_zip states _ (by simp [states, predictNextState, numStates])]
        unfold predictNextState
        rw [list_sum_map_range]
        rfl
  · intro sqrt' series pred hh
    unfold heuristicClassification at hh
    dsimp only at hh
    by_cases hre : (returnsOf (series.map Candle.close)).isEmpty = true
    · rw [if_pos hre] at hh
      exact absurd hh (by simp)
    · rw [if_neg hre] at hh
      rw [Except.ok.injEq] at hh
      subst hh
      refine ⟨by simp, ?_, rfl, rfl⟩
      dsimp only
      split_ifs <;> norm_num

/-- C6 counterexample: a heuristic-path result of `predictMarketRegime` (on
an untrained model and a concrete flat three-candle series) whose
`stateProbabilities` sum to 0.6, not 1. -/
theorem C6_counterexample_heuristic_sum :
    ∃ pred, predictMarketRegime ⟨paramsEx, false⟩ sqrtZero kmZero threeFlatCandles =
        .ok pred ∧
      (pred.stateProbabilities.map Prod.snd).sum = 3 / 5 ∧
      (3 : ℚ) / 5 ≠ 1 := by
  refine ⟨_, by with_unfolding_all rfl, by with_unfolding_all decide,
    by norm_num⟩

/-- C6 witness: the theorem applied to a concrete trained prediction on 28
flat candles (uniform single-symbol parameters, all-zero cluster oracle)
and to a concrete heuristic classification. -/
theorem C6_probability_sums_witness :
    ∃ pred, trainedPredict sqrtZero kmZero paramsEx flat28 = .ok pred ∧
      (pred.stateProbabilities.map Prod.snd).sum = 1 := by
  have hobs : discretizeObservations kmZero (extractHMMFeatures sqrtZero flat28) =
      .ok obsFlat8 := by
    with_unfolding_all rfl
  rcases htp : trainedPredict sqrtZero kmZero paramsEx flat28 with e | pred
  · unfold trainedPredict at htp
    dsimp only at htp
    rw [hobs] at htp
    exact absurd htp (by simp)
  · obtain ⟨obs, hobs', hsum, -⟩ :=
      C6_probability_sums.1 sqrtZero kmZero paramsEx flat28 pred htp
    rw [hobs] at hobs'
    rw [Except.ok.injEq] at hobs'
    subst hobs'
    exact ⟨pred, rfl, hsum (by with_unfolding_all decide)⟩

/-- Loop characterization, no-stop case: if the convergence test fails at
every iteration the loop can still see, it runs out of fuel with the last
computed likelihood and `converged = false`. -/
theorem bwLoop_no_stop {σ : Type} (fb : σ → ℚ) (upd : σ → σ) (s : σ) :
    ∀ fuel iter, 1 ≤ iter →
    (∀ i, iter ≤ i → i < iter + fuel →
      ¬(|bwLik fb upd s i - bwLik fb upd s (i - 1)| < convergenceThreshold)) →
    baumWelchLoop fb upd convergenceThreshold fuel iter
        (some (bwLik fb upd s (iter - 1))) (upd^[iter] s) =
      ⟨upd^[iter + fuel] s, iter + fuel, some (bwLik fb upd s (iter + fuel - 1)), false⟩ := by
  intro fuel
  induction fuel with
  | zero => intro iter h1 _; simp [baumWelchLoop]
  | succ m ih =>
    intro iter h1 hno
    rw [baumWelchLoop]
    have hlik : fb (upd^[iter] s) = bwLik fb upd s iter := rfl
    rw [hlik]
    have hstop := hno iter (le_refl iter) (by omega)
    rw [if_neg hstop]
    have hnext : upd (upd^[iter] s) = upd^[iter + 1] s :=
      (Function.iterate_succ_apply' upd iter s).symm
    rw [hnext]
    have := ih (iter + 1) (by omega) (by
      intro i hi1 hi2
      exact hno i (by omega) (by omega))
    have harg : iter + 1 - 1 = iter := by omega
    rw [harg] at this
    rw [this]
    have h2 : iter + 1 + m = iter + (m + 1) := by omega
    rw [h2]

/-- Loop characterization, stop case: if the convergence test first succeeds
at iteration `j`, the loop returns after `j + 1` iterations with the
likelihood of iteration `j` and `converged = true`. -/
theorem bwLoop_stop {σ : Type} (fb : σ → ℚ) (upd : σ → σ) (s : σ) :
    ∀ fuel iter j, 1 ≤ iter → iter ≤ j → j < iter + fuel →
    (|bwLik fb upd s j - bwLik fb upd s (j - 1)| < convergenceThreshold) →
    (∀ i, iter ≤ i → i < j →
      ¬(|bwLik fb upd s i - bwLik fb upd s (i - 1)| < convergenceThreshold)) →
    baumWelchLoop fb upd convergenceThreshold fuel iter
        (some (bwLik fb upd s (iter - 1))) (upd^[iter] s) =
      ⟨upd^[j + 1] s, j + 1, some (bwLik fb upd s j), true⟩ := by
  intro fuel
  induction fuel with
  | zero => intro iter j _ h2 h3 _ _; omega
  | succ m ih =>
    intro iter j h1 h2 h3 hstop hmin
    rw [baumWelchLoop]
    have hlik : fb (upd^[iter] s) = bwLik fb upd s iter := rfl
    rw [hlik]
    have hnext : upd (upd^[iter] s) = upd^[iter + 1] s :=
      (Function.iterate_succ_apply' upd iter s).symm
    by_cases hj : j = iter
    · subst hj
      rw [if_pos hstop, hnext]
    · have hjgt : iter < j := by omega
      rw [if_neg (hmin iter (le_refl iter) hjgt), hnext]
      have := ih (iter + 1) j (by omega) (by omega) (by omega) hstop (by
        intro i hi1 hi2
        exact hmin i (by omega) hi2)
      have harg : iter + 1 - 1 = iter := by omega
      rw [harg] at this
      exact this

/-- C8: for every observation sequence (and in fact for every E-step
likelihood function `fb` and M-step `upd`, as instantiated by `trainModel`
with `updateParameters`), `baumWelchTraining` performs between 1 and 50
re-estimation steps, stops early exactly when two successive likelihood
values differ by less than 1e-6 — at the first such iteration, reporting
`converged = true` — and its result records the final parameters
(`upd^[iterations]` of the initial ones), the iteration count, and the
likelihood computed by the E-step of its last iteration. -/
theorem C8_baum_welch_loop {σ : Type} (fb : σ → ℚ) (upd : σ → σ) (s : σ) :
    (1 ≤ (baumWelchTraining fb upd s).iterations ∧
      (baumWelchTraining fb upd s).iterations ≤ maxIterations) ∧
    (baumWelchTraining fb upd s).finalState =
      upd^[(baumWelchTraining fb upd s).iterations] s ∧
    (baumWelchTraining fb upd s).likelihood =
      some (bwLik fb upd s ((baumWelchTraining fb upd s).iterations - 1)) ∧
    ((baumWelchTraining fb upd s).converged = true ↔
      ∃ i, 1 ≤ i ∧ i < maxIterations ∧
        |bwLik fb upd s i - bwLik fb upd s (i - 1)| < convergenceThreshold) ∧
    ((baumWelchTraining fb upd s).converged = true →
      |bwLik fb upd s ((baumWelchTraining fb upd s).iterations - 1) -
          bwLik fb upd s ((baumWelchTraining fb upd s).iterations - 2)| <
        convergenceThreshold ∧
      ∀ j, 1 ≤ j → j < (baumWelchTraining fb upd s).iterations - 1 →
        ¬(|bwLik fb upd s j - bwLik fb upd s (j - 1)| < convergenceThreshold)) ∧
    ((baumWelchTraining fb upd s).converged = false →
      (baumWelchTraining fb upd s).iterations = maxIterations) := by
  have hstart : baumWelchTraining fb upd s =
      baumWelchLoop fb upd convergenceThreshold 49 1
        (some (bwLik fb upd s 0)) (upd^[1] s) := rfl
  by_cases hex : ∃ i, 1 ≤ i ∧ i < maxIterations ∧
      |bwLik fb upd s i - bwLik fb upd s (i - 1)| < convergenceThreshold
  · have hj := Nat.find_spec hex
    set j := Nat.find hex with hjdef
    obtain ⟨hj1, hjlt, hjstop⟩ := hj
    have hmin : ∀ i, 1 ≤ i → i < j →
        ¬(|bwLik fb upd s i - bwLik fb upd s (i - 1)| < convergenceThreshold) := by
      intro i hi1 hij hstop
      exact Nat.find_min hex hij ⟨hi1, by unfold maxIterations at *; omega, hstop⟩
    have hrun : baumWelchTraining fb upd s =
        ⟨upd^[j + 1] s, j + 1, some (bwLik fb upd s j), true⟩ := by
      rw [hstart]
      have h0 : bwLik fb upd s 0 = bwLik fb upd s (1 - 1) := rfl
      rw [h0]
      exact bwLoop_stop fb upd s 49 1 j (le_refl 1) hj1
        (by unfold maxIterations at hjlt; omega) hjstop hmin
    rw [hrun]
    dsimp only
    have e1 : j + 1 - 1 = j := by omega
    have e2 : j + 1 - 2 = j - 1 := by omega
    refine ⟨⟨by omega, by unfold maxIterations at *; omega⟩, rfl, by rw [e1], ?_, ?_, ?_⟩
    · exact ⟨fun _ => hex, fun _ => rfl⟩
    · intro _
      rw [e1, e2]
      exact ⟨hjstop, fun i hi1 hi2 => hmin i hi1 (by omega)⟩
    · intro hfalse
      exact absurd hfalse (by simp)
  · have hno : ∀ i, 1 ≤ i → i < 1 + 49 →
        ¬(|bwLik fb upd s i - bwLik fb upd s (i - 1)| < convergenceThreshold) := by
      intro i hi1 hi2 hstop
      exact hex ⟨i, hi1, by unfold maxIterations; omega, hstop⟩
    have hrun : baumWelchTraining fb upd s =
        ⟨upd^[50] s, 50, some (bwLik fb upd s 49), false⟩ := by
      rw [hstart]
      have h0 : bwLik fb upd s 0 = bwLik fb upd s (1 - 1) := rfl
      rw [h0]
      have := bwLoop_no_stop fb upd s 49 1 (le_refl 1) hno
      simpa using this
    rw [hrun]
    dsimp only
    refine ⟨⟨by omega, by unfold maxIterations; omega⟩, rfl, rfl, ?_, ?_, ?_⟩
    · exact ⟨fun h => absurd h (by simp), fun h => absurd h hex⟩
    · intro hfalse
      exact absurd hfalse (by simp)
    · intro _
      unfold maxIterations
      rfl

/-- C8 witness: the loop applied to a concrete state space and likelihood
sequence (successive likelihoods always differ by 1, so the test never
fires): the training runs the full 50 iterations without convergence. -/
theorem C8_baum_welch_witness :
    (baumWelchTraining (fun n : ℕ => (n : ℚ)) Nat.succ 0).converged = false ∧
    (baumWelchTraining (fun n : ℕ => (n : ℚ)) Nat.succ 0).iterations = maxIterations := by
  have hconv : (baumWelchTraining (fun n : ℕ => (n : ℚ)) Nat.succ 0).converged = false := by
    with_unfolding_all decide
  exact ⟨hconv,
    (C8_baum_welch_loop (fun n : ℕ => (n : ℚ)) Nat.succ 0).2.2.2.2.2 hconv⟩

/-! ### Lemmas for the Baum-Welch M-step analysis (claim C1) -/

/-- Every element of a list is bounded by its max-fold. -/
theorem le_foldl_max (l : List ℕ) : ∀ x ∈ l, x ≤ l.foldl max 0 := by
  have key : ∀ (l : List ℕ) (acc : ℕ),
      (∀ x ∈ l, x ≤ l.foldl max acc) ∧ acc ≤ l.foldl max acc := by
    intro l
    induction l with
    | nil => intro acc; exact ⟨by simp, by simp⟩
    | cons a tl ih =>
      intro acc
      obtain ⟨ih1, ih2⟩ := ih (max acc a)
      refine ⟨?_, ?_⟩
      · intro x hx
        rcases List.mem_cons.mp hx with hxa | hxt
        · subst hxa
          exact le_trans (le_max_right acc x) ih2
        · exact ih1 x hxt
      · exact le_trans (le_max_left acc a) ih2
  exact (key l 0).1

/-- Indicator sums over positions equal occurrence counts. -/
theorem sum_ite_getD_count (l : List ℕ) (k : ℕ) (v : ℚ) :
    (∑ t ∈ Finset.range l.length, if l.getD t 0 = k then v else 0) =
      (l.count k : ℚ) * v := by
  induction l with
  | nil => simp
  | cons a tl ih =>
    rw [List.length_cons, Finset.sum_range_succ']
    simp only [List.getD_cons_succ, List.getD_cons_zero]
    rw [ih, List.count_cons]
    by_cases h : a = k
    · subst h
      simp
      ring
    · have hka : ¬(k = a) := fun hh => h hh.symm
      simp [h, hka]

/-- When every element of the list is below `K`, the counts over `0..K-1`
sum to the length. -/
theorem sum_count_range (obs : List ℕ) (K : ℕ) (hK : ∀ x ∈ obs, x < K) :
    (∑ k ∈ Finset.range K, (obs.count k : ℚ)) = (obs.length : ℚ) := by
  have key : (∑ k ∈ Finset.range K, obs.count k) = obs.length := by
    induction obs with
    | nil => simp
    | cons a tl ih =>
      have hsum : ∀ k ∈ Finset.range K, (a :: tl).count k =
          tl.count k + if k = a then 1 else 0 := by
        intro k _
        rw [List.count_cons]
        by_cases h : k = a
        · subst h; simp
        · simp [h, Ne.symm h]
      rw [Finset.sum_congr rfl hsum, Finset.sum_add_distrib,
        ih (fun x hx => hK x (List.mem_cons_of_mem a hx)),
        Finset.sum_ite_eq' (Finset.range K) a (fun _ => 1),
        if_pos (Finset.mem_range.mpr (hK a (List.mem_cons_self a tl)))]
      simp
  rw [← key]
  push_cast
  rfl

/-- In a symmetric parameter set, the forward variable is independent of the
state index and positive. -/
theorem sym_alpha {p : HMMParams} {obs : List ℕ} {a c : ℚ} {e : ℕ → ℚ}
    (hs : SymShape p obs a c e) :
    ∀ t, t < obs.length →
      (∀ i, i < numStates → forwardAlpha p obs t i = forwardAlpha p obs t 0) ∧
      0 < forwardAlpha p obs t 0 := by
  intro t
  induction t with
  | zero =>
    intro ht
    have key : ∀ i, i < numStates → forwardAlpha p obs 0 i = c * e (obs.getD 0 0) := by
      intro i hi
      show p.initialProbs.getD i 0 * mget p.emissionMatrix i (obs.getD 0 0) = _
      rw [hs.hinit i hi, hs.hemis i _ hi]
    constructor
    · intro i hi
      rw [key i hi, key 0 (by norm_num [numStates])]
    · rw [key 0 (by norm_num [numStates])]
      exact mul_pos hs.hc (hs.hobs 0 ht)
  | succ n ih =>
    intro ht
    obtain ⟨iheq, ihpos⟩ := ih (by omega)
    have key : ∀ j, j < numStates → forwardAlpha p obs (n + 1) j =
        4 * (forwardAlpha p obs n 0 * a) * e (obs.getD (n + 1) 0) := by
      intro j hj
      show (∑ i ∈ Finset.range numStates,
          forwardAlpha p obs n i * mget p.transitionMatrix i j) *
          mget p.emissionMatrix j (obs.getD (n + 1) 0) = _
      rw [hs.hemis j _ hj]
      have hsum : ∀ i ∈ Finset.range numStates,
          forwardAlpha p obs n i * mget p.transitionMatrix i j =
            forwardAlpha p obs n 0 * a := by
        intro i hi
        rw [Finset.mem_range] at hi
        rw [iheq i hi, hs.htrans i j hi hj]
      rw [Finset.sum_congr rfl hsum, Finset.sum_const, Finset.card_range]
      show (numStates : ℕ) • (forwardAlpha p obs n 0 * a) * e (obs.getD (n + 1) 0) = _
      rw [nsmul_eq_mul]
      norm_num [numStates]
    constructor
    · intro i hi
      rw [key i hi, key 0 (by norm_num [numStates])]
    · rw [key 0 (by norm_num [numStates])]
      exact mul_pos (mul_pos (by norm_num) (mul_pos ihpos hs.ha)) (hs.hobs (n + 1) ht)

/-- In a symmetric parameter set, the backward variable is independent of
the state index and positive. -/
theorem sym_beta {p : HMMParams} {obs : List ℕ} {a c : ℚ} {e : ℕ → ℚ}
    (hs : SymShape p obs a c e) (hT1 : 1 ≤ obs.length) :
    ∀ k, k ≤ obs.length - 1 →
      (∀ i, i < numStates →
        backwardBetaAux p obs obs.length k i = backwardBetaAux p obs obs.length k 0) ∧
      0 < backwardBetaAux p obs obs.length k 0 := by
  intro k
  induction k with
  | zero =>
    intro _
    exact ⟨fun i _ => rfl, by norm_num [backwardBetaAux]⟩
  | succ n ih =>
    intro hk
    obtain ⟨iheq, ihpos⟩ := ih (by omega)
    have hidx : obs.length - 1 - n < obs.length := by omega
    have key : ∀ i, i < numStates → backwardBetaAux p obs obs.length (n + 1) i =
        4 * (a * (e (obs.getD (obs.length - 1 - n) 0) *
          backwardBetaAux p obs obs.length n 0)) := by
      intro i hi
      show (∑ j ∈ Finset.range numStates,
          mget p.transitionMatrix i j *
            mget p.emissionMatrix j (obs.getD (obs.length - 1 - n) 0) *
            backwardBetaAux p obs obs.length n j) = _
      have hsum : ∀ j ∈ Finset.range numStates,
          mget p.transitionMatrix i j *
            mget p.emissionMatrix j (obs.getD (obs.length - 1 - n) 0) *
            backwardBetaAux p obs obs.length n j =
          a * (e (obs.getD (obs.length - 1 - n) 0) *
            backwardBetaAux p obs obs.length n 0) := by
        intro j hj
        rw [Finset.mem_range] at hj
        rw [hs.htrans i j hi hj, hs.hemis j _ hj, iheq j hj]
        ring
      rw [Finset.sum_congr rfl hsum, Finset.sum_const, Finset.card_range, nsmul_eq_mul]
      norm_num [numStates]
    constructor
    · intro i hi
      rw [key i hi, key 0 (by norm_num [numStates])]
    · rw [key 0 (by norm_num [numStates])]
      exact mul_pos (by norm_num)
        (mul_pos hs.ha (mul_pos (hs.hobs _ hidx) ihpos))

/-- The backward recursion step in a symmetric parameter set. -/
theorem sym_beta_succ {p : HMMParams} {obs : List ℕ} {a c : ℚ} {e : ℕ → ℚ}
    (hs : SymShape p obs a c e) (hT1 : 1 ≤ obs.length) (n : ℕ)
    (hn : n + 1 ≤ obs.length - 1) :
    backwardBetaAux p obs obs.length (n + 1) 0 =
      4 * (a * (e (obs.getD (obs.length - 1 - n) 0) *
        backwardBetaAux p obs obs.length n 0)) := by
  obtain ⟨iheq, -⟩ := sym_beta hs hT1 n (by omega)
  show (∑ j ∈ Finset.range numStates,
      mget p.transitionMatrix 0 j *
        mget p.emissionMatrix j (obs.getD (obs.length - 1 - n) 0) *
        backwardBetaAux p obs obs.length n j) = _
  have hsum : ∀ j ∈ Finset.range numStates,
      mget p.transitionMatrix 0 j *
        mget p.emissionMatrix j (obs.getD (obs.length - 1 - n) 0) *
        backwardBetaAux p obs obs.length n j =
      a * (e (obs.getD (obs.length - 1 - n) 0) *
        backwardBetaAux p obs obs.length n 0) := by
    intro j hj
    rw [Finset.mem_range] at hj
    rw [hs.htrans 0 j (by norm_num [numStates]) hj, hs.hemis j _ hj, iheq j hj]
    ring
  rw [Finset.sum_congr rfl hsum, Finset.sum_const, Finset.card_range, nsmul_eq_mul]
  norm_num [numStates]

/-- In a symmetric parameter set, every state-occupancy probability of the
M-step is exactly `1/4`. -/
theorem sym_gamma {p : HMMParams} {obs : List ℕ} {a c : ℚ} {e : ℕ → ℚ}
    (hs : SymShape p obs a c e) (hT1 : 1 ≤ obs.length) (t : ℕ)
    (ht : t < obs.length) (i : ℕ) (hi : i < numStates) :
    bwGamma p obs t i = 1 / 4 := by
  obtain ⟨hαeq, hαpos⟩ := sym_alpha hs t ht
  obtain ⟨hβeq, hβpos⟩ := sym_beta hs hT1 (obs.length - 1 - t) (by omega)
  unfold bwGamma backwardBeta
  have hrw : ∀ i', i' < numStates →
      forwardAlpha p obs t i' *
        backwardBetaAux p obs obs.length (obs.length - 1 - t) i' =
      forwardAlpha p obs t 0 *
        backwardBetaAux p obs obs.length (obs.length - 1 - t) 0 := by
    intro i' hi'
    rw [hαeq i' hi', hβeq i' hi']
  rw [hrw i hi,
    Finset.sum_congr rfl (fun i' hi' => hrw i' (Finset.mem_range.mp hi')),
    Finset.sum_const, Finset.card_range, nsmul_eq_mul]
  have hX : 0 < forwardAlpha p obs t 0 *
      backwardBetaAux p obs obs.length (obs.length - 1 - t) 0 :=
    mul_pos hαpos hβpos
  have hcast : ((numStates : ℕ) : ℚ) = 4 := by norm_num [numStates]
  rw [hcast, div_eq_div_iff (ne_of_gt (by linarith : (0:ℚ) < 4 *
      (forwardAlpha p obs t 0 *
        backwardBetaAux p obs obs.length (obs.length - 1 - t) 0)))
    (by norm_num : (4:ℚ) ≠ 0)]
  ring

/-- The Baum-Welch M-step of this code sends every symmetric parameter set
(with at least two observations) to `bwFixedPoint`: in particular every
transition-matrix entry becomes exactly 1, because the mis-normalized `xi`
sums to 1 over the target state at every time step. -/
theorem sym_update {p : HMMParams} {obs : List ℕ} {a c : ℚ} {e : ℕ → ℚ}
    (hs : SymShape p obs a c e) (hT : 2 ≤ obs.length) :
    updateParameters p obs = bwFixedPoint obs p.symbolCount := by
  have hT1 : 1 ≤ obs.length := by omega
  unfold updateParameters bwFixedPoint
  dsimp only
  simp only [HMMParams.mk.injEq]
  refine ⟨?_, ?_, ?_, trivial⟩
  · unfold matConst
    apply List.map_congr_left
    intro i hi
    rw [List.mem_range] at hi
    apply List.map_congr_left
    intro j hj
    rw [List.mem_range] at hj
    have hterm : ∀ t ∈ Finset.range (obs.length - 1),
        forwardAlpha p obs t i * mget p.transitionMatrix i j *
          mget p.emissionMatrix j (obs.getD (t + 1) 0) *
          backwardBeta p obs obs.length (t + 1) j /
          (forwardAlpha p obs t i * backwardBeta p obs obs.length t i) =
          1 / 4 := by
      intro t ht
      rw [Finset.mem_range] at ht
      have htT : t < obs.length := by omega
      have ht1T : t + 1 < obs.length := by omega
      obtain ⟨hαeq, hαpos⟩ := sym_alpha hs t htT
      obtain ⟨hβeq1, hβpos1⟩ := sym_beta hs hT1 (obs.length - 1 - (t + 1)) (by omega)
      obtain ⟨hβeqS, -⟩ := sym_beta hs hT1 (obs.length - 1 - t) (by omega)
      have hb1 : backwardBeta p obs obs.length (t + 1) j =
          backwardBetaAux p obs obs.length (obs.length - 1 - (t + 1)) 0 := by
        unfold backwardBeta
        exact hβeq1 j hj
      have hb0 : backwardBeta p obs obs.length t i =
          4 * (a * (e (obs.getD (t + 1) 0) *
            backwardBetaAux p obs obs.length (obs.length - 1 - (t + 1)) 0)) := by
        unfold backwardBeta
        rw [hβeqS i hi]
        have hidx : obs.length - 1 - t = (obs.length - 1 - (t + 1)) + 1 := by omega
        rw [hidx, sym_beta_succ hs hT1 (obs.length - 1 - (t + 1)) (by omega)]
        have hidx2 : obs.length - 1 - (obs.length - 1 - (t + 1)) = t + 1 := by omega
        rw [hidx2]
      rw [hs.htrans i j hi hj, hs.hemis j _ hj, hαeq i hi, hb1, hb0]
      have hApos : 0 < forwardAlpha p obs t 0 := hαpos
      have hEpos : 0 < e (obs.getD (t + 1) 0) := hs.hobs (t + 1) ht1T
      have hden : (0:ℚ) < forwardAlpha p obs t 0 *
          (4 * (a * (e (obs.getD (t + 1) 0) *
            backwardBetaAux p obs obs.length (obs.length - 1 - (t + 1)) 0))) :=
        mul_pos hApos (mul_pos (by norm_num)
          (mul_pos hs.ha (mul_pos hEpos hβpos1)))
      rw [div_eq_div_iff (ne_of_gt hden) (by norm_num : (4:ℚ) ≠ 0)]
      ring
    have hgam : ∀ t ∈ Finset.range (obs.length - 1), bwGamma p obs t i = 1 / 4 := by
      intro t ht
      rw [Finset.mem_range] at ht
      exact sym_gamma hs hT1 t (by omega) i hi
    rw [Finset.sum_congr rfl hterm, Finset.sum_congr rfl hgam, Finset.sum_const,
      Finset.card_range, nsmul_eq_mul]
    have hTm1 : (0:ℚ) < ((obs.length - 1 : ℕ) : ℚ) := by
      exact_mod_cast (by omega : 0 < obs.length - 1)
    rw [div_self (ne_of_gt (mul_pos hTm1 (by norm_num)))]
  · apply List.map_congr_left
    intro i hi
    rw [List.mem_range] at hi
    apply List.map_congr_left
    intro k _
    have hgam : ∀ t ∈ Finset.range obs.length, bwGamma p obs t i = 1 / 4 := by
      intro t ht
      exact sym_gamma hs hT1 t (Finset.mem_range.mp ht) i hi
    have hcong : ∀ t ∈ Finset.range obs.length,
        (if obs.getD t 0 = k then bwGamma p obs t i else 0) =
        (if obs.getD t 0 = k then (1 / 4 : ℚ) else 0) := by
      intro t ht
      rw [hgam t ht]
    have hnum : (∑ t ∈ Finset.range obs.length,
        if obs.getD t 0 = k then bwGamma p obs t i else 0) =
        (obs.count k : ℚ) * (1 / 4) := by
      rw [Finset.sum_congr rfl hcong, sum_ite_getD_count]
    have hden : (∑ t ∈ Finset.range obs.length, bwGamma p obs t i) =
        ((obs.length : ℕ) : ℚ) * (1 / 4) := by
      rw [Finset.sum_congr rfl hgam, Finset.sum_const, Finset.card_range, nsmul_eq_mul]
    rw [hnum, hden, mul_div_mul_right _ _ (by norm_num : (1 / 4 : ℚ) ≠ 0)]
  · apply List.map_congr_left
    intro i hi
    rw [List.mem_range] at hi
    exact sym_gamma hs hT1 0 (by omega) i hi

/-- In-range defaulted indexing hits a list member. -/
theorem getD_mem_of_lt (l : List ℕ) (n : ℕ) (h : n < l.length) : l.getD n 0 ∈ l := by
  rw [List.getD_eq_getElem l 0 h]
  exact l.getElem_mem h

/-- Reading a constant matrix. -/
theorem mget_matConst (r c' : ℕ) (x : ℚ) (i j : ℕ) (hi : i < r) :
    mget (matConst r c' x) i j = if j < c' then x else 0 := by
  unfold mget matConst
  rw [getD_map_range [] _ hi]
  by_cases hj : j < c'
  · rw [getD_map_range 0 _ hj, if_pos hj]
  · rw [if_neg hj, List.getD_eq_default]
    simp only [List.length_map, List.length_range]
    omega

/-- The uniform initialization is symmetric with positive entries. -/
theorem init_shape (obs : List ℕ) (_hne : 1 ≤ obs.length) :
    SymShape (initializeParameters obs) obs (1 / (numStates : ℚ))
      (1 / (numStates : ℚ))
      (fun k => if k < obs.foldl max 0 + 1 then
        1 / ((obs.foldl max 0 + 1 : ℕ) : ℚ) else 0) := by
  constructor
  · norm_num [numStates]
  · norm_num [numStates]
  · intro i j hi hj
    unfold initializeParameters
    dsimp only
    rw [mget_matConst _ _ _ _ _ hi, if_pos hj]
  · intro i k hi
    unfold initializeParameters
    dsimp only
    rw [mget_matConst _ _ _ _ _ hi]
  · intro i hi
    unfold initializeParameters
    dsimp only
    rw [getD_map_range 0 _ hi]
  · intro t ht
    have hmem : obs.getD t 0 ∈ obs := getD_mem_of_lt obs t ht
    have hlt : obs.getD t 0 < obs.foldl max 0 + 1 :=
      Nat.lt_succ_of_le (le_foldl_max obs _ hmem)
    rw [if_pos hlt]
    have hpos : (0:ℚ) < ((obs.foldl max 0 + 1 : ℕ) : ℚ) := by
      exact_mod_cast Nat.succ_pos (obs.foldl max 0)
    positivity

/-- The all-ones fixed point is symmetric with positive entries. -/
theorem bwFixedPoint_shape (obs : List ℕ) (K : ℕ) (hK : ∀ x ∈ obs, x < K)
    (hne : 1 ≤ obs.length) :
    SymShape (bwFixedPoint obs K) obs 1 (1 / 4)
      (fun k => if k < K then (obs.count k : ℚ) / (obs.length : ℚ) else 0) := by
  constructor
  · norm_num
  · norm_num
  · intro i j hi hj
    unfold bwFixedPoint
    dsimp only
    rw [mget_matConst _ _ _ _ _ hi, if_pos hj]
  · intro i k hi
    unfold bwFixedPoint mget
    dsimp only
    rw [getD_map_range [] _ hi]
    by_cases hk : k < K
    · rw [getD_map_range 0 _ hk, if_pos hk]
    · rw [if_neg hk, List.getD_eq_default]
      simp only [List.length_map, List.length_range]
      omega
  · intro i hi
    unfold bwFixedPoint
    dsimp only
    rw [getD_map_range 0 _ hi]
  · intro t ht
    have hmem : obs.getD t 0 ∈ obs := getD_mem_of_lt obs t ht
    rw [if_pos (hK _ hmem)]
    have hcount : 0 < obs.count (obs.getD t 0) := List.count_pos_iff.mpr hmem
    exact div_pos (by exact_mod_cast hcount)
      (by exact_mod_cast (by omega : 0 < obs.length))

/-- If the M-step fixes `sFix`, the training loop started at `sFix` ends at
`sFix`. -/
theorem loop_finalState_fix {σ : Type} (fb : σ → ℚ) (upd : σ → σ) (thr : ℚ)
    (sFix : σ) (hfix : upd sFix = sFix) :
    ∀ fuel iter prev,
      (baumWelchLoop fb upd thr fuel iter prev sFix).finalState = sFix := by
  intro fuel
  induction fuel with
  | zero => intro iter prev; rfl
  | succ m ih =>
    intro iter prev
    cases prev with
    | none =>
      show (baumWelchLoop fb upd thr m (iter + 1) (some (fb sFix)) (upd sFix)).finalState = sFix
      rw [hfix]
      exact ih (iter + 1) (some (fb sFix))
    | some pl =>
      by_cases h : |fb sFix - pl| < thr
      · show (if |fb sFix - pl| < thr then
            (⟨upd sFix, iter + 1, some (fb sFix), true⟩ : BWResult σ)
          else baumWelchLoop fb upd thr m (iter + 1) (some (fb sFix))
            (upd sFix)).finalState = sFix
        rw [if_pos h]
        exact hfix
      · show (if |fb sFix - pl| < thr then
            (⟨upd sFix, iter + 1, some (fb sFix), true⟩ : BWResult σ)
          else baumWelchLoop fb upd thr m (iter + 1) (some (fb sFix))
            (upd sFix)).finalState = sFix
        rw [if_neg h, hfix]
        exact ih (iter + 1) (some (fb sFix))

/-- If the first M-step sends `s` to a fixed point of the M-step, every run
of the training loop (any fuel, any previous likelihood) ends at that fixed
point. -/
theorem loop_finalState_start {σ : Type} (fb : σ → ℚ) (upd : σ → σ) (thr : ℚ)
    (s sFix : σ) (hstep : upd s = sFix) (hfix : upd sFix = sFix) :
    ∀ fuel iter prev,
      (baumWelchLoop fb upd thr (fuel + 1) iter prev s).finalState = sFix := by
  intro fuel iter prev
  cases prev with
  | none =>
    show (baumWelchLoop fb upd thr fuel (iter + 1) (some (fb s)) (upd s)).finalState = sFix
    rw [hstep]
    exact loop_finalState_fix fb upd thr sFix hfix fuel (iter + 1) (some (fb s))
  | some pl =>
    by_cases h : |fb s - pl| < thr
    · show (if |fb s - pl| < thr then
          (⟨upd s, iter + 1, some (fb s), true⟩ : BWResult σ)
        else baumWelchLoop fb upd thr fuel (iter + 1) (some (fb s))
          (upd s)).finalState = sFix
      rw [if_pos h]
      exact hstep
    · show (if |fb s - pl| < thr then
          (⟨upd s, iter + 1, some (fb s), true⟩ : BWResult σ)
        else baumWelchLoop fb upd thr fuel (iter + 1) (some (fb s))
          (upd s)).finalState = sFix
      rw [if_neg h, hstep]
      exact loop_finalState_fix fb upd thr sFix hfix fuel (iter + 1) (some (fb s))

/-- Row sums of the fixed point: transition rows sum to 4, emission rows
and the initial probabilities sum to 1. -/
theorem bwFixedPoint_row_sums (obs : List ℕ) (K : ℕ) (hK : ∀ x ∈ obs, x < K)
    (hne : 1 ≤ obs.length) :
    (bwFixedPoint obs K).transitionMatrix.map List.sum = [4, 4, 4, 4] ∧
    (bwFixedPoint obs K).emissionMatrix.map List.sum = [1, 1, 1, 1] ∧
    (bwFixedPoint obs K).initialProbs.sum = 1 := by
  refine ⟨?_, ?_, ?_⟩
  · show (matConst numStates numStates 1).map List.sum = [4, 4, 4, 4]
    with_unfolding_all decide
  · show ((List.range numStates).map (fun _ =>
      (List.range K).map (fun k => (obs.count k : ℚ) / (obs.length : ℚ)))).map
        List.sum = [1, 1, 1, 1]
    have hrsum : ((List.range K).map
        (fun k => (obs.count k : ℚ) / (obs.length : ℚ))).sum = 1 := by
      rw [list_sum_map_range, ← Finset.sum_div, sum_count_range obs K hK, div_self]
      exact_mod_cast (by omega : 0 < obs.length).ne'
    rw [List.map_map]
    have hconst : (List.sum ∘ fun _ : ℕ =>
        (List.range K).map (fun k => (obs.count k : ℚ) / (obs.length : ℚ))) =
        fun _ : ℕ => (1 : ℚ) := funext (fun _ => hrsum)
    rw [hconst]
    rfl
  · show ((List.range numStates).map (fun _ => (1 : ℚ) / 4)).sum = 1
    with_unfolding_all decide

/-- C1: after every successful `trainModel` call (any series of at least
100 candles, any clustering and likelihood oracles), every row of the
learned transition matrix sums to 4 — every entry is 1 — refuting the
claimed row-stochasticity of the transition matrix; the emission rows and
the initial probabilities do sum to 1 as claimed. -/
theorem C1_transition_rows_not_stochastic (sqrt' : ℚ → ℚ) (km : KMeansOracle)
    (loglik : HMMParams → List ℕ → ℚ) (d : List Candle) (out : TrainOutcome)
    (h : trainModel sqrt' km loglik d = .ok out) :
    out.model.transitionMatrix.map List.sum = [4, 4, 4, 4] ∧
    out.model.emissionMatrix.map List.sum = [1, 1, 1, 1] ∧
    out.model.initialProbs.sum = 1 := by
  unfold trainModel at h
  by_cases hlen : d.length < minTrainingData
  · rw [if_pos hlen] at h
    exact absurd h (by simp)
  · rw [if_neg hlen] at h
    cases hd : discretizeObservations km (extractHMMFeatures sqrt' d) with
    | error e => rw [hd] at h; exact absurd h (by simp)
    | ok obs =>
      rw [hd] at h
      dsimp only at h
      rw [Except.ok.injEq] at h
      subst h
      unfold discretizeObservations at hd
      by_cases hlt : (extractHMMFeatures sqrt' d).length < numSymbols
      · rw [if_pos hlt] at hd
        exact absurd hd (by simp)
      · rw [if_neg hlt] at hd
        rw [Except.ok.injEq] at hd
        have hlen2 : 2 ≤ obs.length := by
          rw [← hd, (km (extractHMMFeatures sqrt' d)).property,
            extractHMMFeatures_length]
          unfold windowSize
          unfold minTrainingData at hlen
          omega
        have hne1 : 1 ≤ obs.length := by omega
        have hKbound : ∀ x ∈ obs, x < obs.foldl max 0 + 1 :=
          fun x hx => Nat.lt_succ_of_le (le_foldl_max obs x hx)
        have hstep : updateParameters (initializeParameters obs) obs =
            bwFixedPoint obs (obs.foldl max 0 + 1) := by
          have hu := sym_update (init_shape obs hne1) hlen2
          rwa [show (initializeParameters obs).symbolCount =
            obs.foldl max 0 + 1 from rfl] at hu
        have hfix : updateParameters (bwFixedPoint obs (obs.foldl max 0 + 1)) obs =
            bwFixedPoint obs (obs.foldl max 0 + 1) := by
          have hu := sym_update (bwFixedPoint_shape obs _ hKbound hne1) hlen2
          rwa [show (bwFixedPoint obs (obs.foldl max 0 + 1)).symbolCount =
            obs.foldl max 0 + 1 from rfl] at hu
        have hfinal : (baumWelchTraining (fun p => loglik p obs)
            (fun p => updateParameters p obs)
            (initializeParameters obs)).finalState =
            bwFixedPoint obs (obs.foldl max 0 + 1) := by
          unfold baumWelchTraining
          rw [show maxIterations = 49 + 1 from rfl]
          exact loop_finalState_start _ _ _ _ _ hstep hfix 49 0 none
        dsimp only
        rw [hfinal]
        exact bwFixedPoint_row_sums obs _ hKbound hne1

/-- With at least `minTrainingData` candles, `trainModel` always returns a
result in the embedding (the only throw sites are the length guard and the
k-means point-count check, and both pass). -/
theorem trainModel_ok_of_length (sqrt' : ℚ → ℚ) (km : KMeansOracle)
    (loglik : HMMParams → List ℕ → ℚ) (d : List Candle)
    (h : minTrainingData ≤ d.length) :
    ∃ out, trainModel sqrt' km loglik d = .ok out := by
  unfold trainModel
  rw [if_neg (by omega)]
  have hfl : ¬ ((extractHMMFeatures sqrt' d).length < numSymbols) := by
    rw [extractHMMFeatures_length]
    unfold windowSize numSymbols
    unfold minTrainingData at h
    omega
  unfold discretizeObservations
  rw [if_neg hfl]
  exact ⟨_, rfl⟩

/-- C1 witness: the theorem applied to a concrete 100-candle training run
(flat candles, all-zero clustering oracle, zero likelihood oracle). -/
theorem C1_transition_rows_witness :
    ∃ out, trainModel sqrtZero kmZero (fun _ _ => 0) flat100 = .ok out ∧
      out.model.transitionMatrix.map List.sum = [4, 4, 4, 4] := by
  obtain ⟨out, hout⟩ := trainModel_ok_of_length sqrtZero kmZero (fun _ _ => 0)
    flat100 (by decide)
  exact ⟨out, hout,
    (C1_transition_rows_not_stochastic sqrtZero kmZero (fun _ _ => 0)
      flat100 out hout).1⟩

/-- C2 witness: the boundary instances — 99 flat candles raise the
insufficient-data error, 100 do not. -/
theorem C2_trainModel_boundary_witness :
    trainModel sqrtZero kmZero (fun _ _ => 0) (List.replicate 99 ⟨0, 1, 1, 1, 1, 1⟩) =
      .error .insufficientData ∧
    ¬(trainModel sqrtZero kmZero (fun _ _ => 0) flat100 =
      .error .insufficientData) := by
  constructor
  · exact (C2_trainModel_minimum_data sqrtZero kmZero (fun _ _ => 0) _).mpr (by decide)
  · intro h
    have := (C2_trainModel_minimum_data sqrtZero kmZero (fun _ _ => 0) flat100).mp h
    revert this
    decide

end Solara
